import Mathlib

/-!
Shallow embedding of the AccountManager multi-chain custodial account
manager (coin adapters Satoshi, Buterin, ERC20, Ripple; JSON-RPC
dispatcher with outbox tables) and proofs about the behaviour of its
operations.

Monetary values are arbitrary-precision integers (JavaScript BigInt),
modelled by `Int` (by `Nat` inside the decimal codec, whose inputs are
non-negative decimal literals).  A decimal string `I.F` is modelled by
the triple `(intPart, frac, fracLen)` where `frac` is the value of the
digit string `F` of length `fracLen`; string operations. (`padEnd`,
`slice`, concatenation, `padStart`) translate to exact arithmetic on
these fields.
-/

/-- A non-negative decimal literal `I.F`: `intPart` is the value of the
integer digits (rendered canonically, without leading zeros), `frac` the
value of the fractional digit string, `fracLen` its length (so the
literal is well formed when `frac < 10 ^ fracLen`). A literal with no
point has `fracLen = 0`. -/
structure DecimalStr where
  intPart : Nat
  frac : Nat
  fracLen : Nat
deriving Repr, DecidableEq

/-- Well-formedness of a decimal literal: the fractional digit string of
length `fracLen` has value `frac`. -/
def DecimalStr.WF (s : DecimalStr) : Prop := s.frac < 10 ^ s.fracLen

instance (s : DecimalStr) : Decidable s.WF := by
  unfold DecimalStr.WF; infer_instance

/-- `Satoshi.toBigInt` / `ERC20.toBigInt` (identical code): split at the
point, pad the fractional digits to `decimals` with zeros, keep the
first `decimals` of them, and add one when `rounded` and the first
dropped digit is `≥ '5'` (`decis[this.decimals] >= "5"`; the index is
out of range, hence the comparison false, when at most `decimals`
fractional digits are given). -/
def satoshiToBigInt (rounded : Bool) (decimals : Nat) (s : DecimalStr) : Nat :=
  if s.fracLen ≤ decimals then
    s.intPart * 10 ^ decimals + s.frac * 10 ^ (decimals - s.fracLen)
  else
    s.intPart * 10 ^ decimals + s.frac / 10 ^ (s.fracLen - decimals) +
      (if rounded ∧ 5 ≤ s.frac / 10 ^ (s.fracLen - decimals - 1) % 10 then 1 else 0)

/-- `Satoshi.fromBigInt` / `ERC20.fromBigInt`: pad the digit string of
`units` to `decimals + 1` characters and put the point before the last
`decimals` of them. -/
def satoshiFromBigInt (decimals : Nat) (units : Nat) : DecimalStr :=
  ⟨units / 10 ^ decimals, units % 10 ^ decimals, decimals⟩

/-- `Ripple.toBigInt` of `src/unnamed/part_000` (also `part_006`): pad
the fractional digits to `decimals` with zeros and concatenate — there
is no `slice` and no rounding term, so a literal with more than
`decimals` fractional digits keeps all of its digits. -/
def rippleToBigInt (decimals : Nat) (s : DecimalStr) : Nat :=
  if s.fracLen ≤ decimals then
    s.intPart * 10 ^ decimals + s.frac * 10 ^ (decimals - s.fracLen)
  else
    s.intPart * 10 ^ s.fracLen + s.frac

/-- `Ripple.fromBigInt` (same code as the Satoshi one). -/
def rippleFromBigInt (decimals : Nat) (units : Nat) : DecimalStr :=
  ⟨units / 10 ^ decimals, units % 10 ^ decimals, decimals⟩

/-- Spec-side truncating conversion: the real value `I.F` scaled by
`10 ^ decimals` and rounded towards zero. -/
def specTruncate (decimals : Nat) (s : DecimalStr) : Nat :=
  (s.intPart * 10 ^ s.fracLen + s.frac) * 10 ^ decimals / 10 ^ s.fracLen

/-- Spec-side half-up conversion: the real value `I.F` scaled by
`10 ^ decimals` and rounded to the nearest integer, ties upwards. -/
def specHalfUp (decimals : Nat) (s : DecimalStr) : Nat :=
  (2 * (s.intPart * 10 ^ s.fracLen + s.frac) * 10 ^ decimals + 10 ^ s.fracLen)
    / (2 * 10 ^ s.fracLen)

/-- Padding a literal with trailing zeros to exactly `decimals`
fractional digits (defined for `fracLen ≤ decimals`). -/
def padFrac (decimals : Nat) (s : DecimalStr) : DecimalStr :=
  ⟨s.intPart, s.frac * 10 ^ (decimals - s.fracLen), decimals⟩

/-! ## Ledger store

Per-coin SQLite state (`<coin>_addresses`, `<coin>_awaiting_deposits`,
`<coin>_transactions`, `<coin>_withdrawal_transactions`,
`<coin>_pending`, `<coin>_account_stats`, `<coin>_global_stats`,
`<coin>_backend_info`, `<coin>_processed_blocks`), modelled as lists of
rows.  User identifiers (hex-decoded byte buffers) and hashes are
abstracted to `Nat`, addresses to `String`. -/

abbrev UserId := Nat
abbrev Addr := String

/-- A `<coin>_pending` row. -/
structure PendingRow where
  userId : UserId
  amount : Int
  address : Addr
deriving Repr, DecidableEq

/-- Account or global running totals (`deposit`, `withdrawal`). -/
structure Stats where
  deposit : Int
  withdrawal : Int
deriving Repr, DecidableEq

/-- A `<coin>_transactions` row (fields irrelevant to the claims
omitted from the key; `vout`/`blockHash`/`blockTime` folded into the
recorded data where needed). -/
structure TxRow where
  userId : UserId
  amount : Int
  txHash : Nat
  blockHeight : Nat
deriving Repr, DecidableEq

/-- A `<coin>_withdrawal_transactions` row. -/
structure WTxRow where
  userId : UserId
  amount : Int
  txHash : Nat
  address : Addr
deriving Repr, DecidableEq

/-- The per-coin persistent state. -/
structure CoinState where
  addresses : List (UserId × Addr)
  awaiting : List (UserId × Int)
  txs : List TxRow
  wtxs : List WTxRow
  pending : List PendingRow
  accountStats : List (UserId × Stats)
  globalStats : Stats
  backendBalance : Int
  processedBlocks : List (Nat × Nat)
deriving Repr, DecidableEq

/-- `SELECT address FROM _addresses WHERE userId = ?`. -/
def dbGetAddress (st : CoinState) (u : UserId) : Option Addr :=
  (st.addresses.find? (fun r => r.1 == u)).map (·.2)

/-- `SELECT userId FROM _addresses WHERE address = ?`. -/
def dbGetUserId (st : CoinState) (a : Addr) : Option UserId :=
  (st.addresses.find? (fun r => r.2 == a)).map (·.1)

/-- `SELECT * FROM _pending WHERE userId = ?`. -/
def dbGetAccountPending (st : CoinState) (u : UserId) : Option PendingRow :=
  st.pending.find? (fun r => r.userId == u)

/-- `bn_sum(amount)` over `<coin>_pending` (the `bn_sum` aggregate of
`ButerinDatabase`/`ERC20Database` adds the rows' BigInt amounts,
starting from `0n`). -/
def dbGetPendingSum (st : CoinState) : Int :=
  st.pending.foldl (fun acc r => acc + r.amount) 0

/-- `SELECT * FROM _account_stats WHERE userId = ?`, defaulting to
`{deposit:'0', withdrawal:'0'}` when no row exists. -/
def dbGetAccountStats (st : CoinState) (u : UserId) : Stats :=
  ((st.accountStats.find? (fun r => r.1 == u)).map (·.2)).getD ⟨0, 0⟩

/-- `setAccountStats`: `UPDATE` then `INSERT ... ON CONFLICT IGNORE`
inside one transaction — update the row when present, insert otherwise. -/
def dbSetAccountStats (st : CoinState) (u : UserId) (s : Stats) : CoinState :=
  if (st.accountStats.find? (fun r => r.1 == u)).isSome then
    { st with accountStats := st.accountStats.map (fun r => if r.1 == u then (u, s) else r) }
  else
    { st with accountStats := st.accountStats ++ [(u, s)] }

/-- `INSERT INTO _pending (userId, address, amount) VALUES (?, ?, ?)`. -/
def dbInsertPending (st : CoinState) (u : UserId) (a : Addr) (amt : Int) : CoinState :=
  { st with pending := st.pending ++ [⟨u, amt, a⟩] }

/-- `DELETE FROM _pending WHERE userId = ?`. -/
def dbDeletePending (st : CoinState) (u : UserId) : CoinState :=
  { st with pending := st.pending.filter (fun r => r.userId != u) }

/-- `EXISTS (SELECT entryId FROM _transactions WHERE txHash = ?)`
(the Buterin/ERC20 form, keyed on the hash alone). -/
def dbCheckTransactionExists (st : CoinState) (h : Nat) : Bool :=
  st.txs.any (fun r => r.txHash == h)

/-- The Satoshi form, keyed on `userId` and `txHash`. -/
def dbCheckTransactionExistsSat (st : CoinState) (u : UserId) (h : Nat) : Bool :=
  st.txs.any (fun r => r.userId == u && r.txHash == h)

/-- `getAwaitingDeposits` of `ERC20Database` (`src/unnamed/part_005`):
all `<coin>_awaiting_deposits` rows as a map from BigInt `amount` to
`userId`; the unique index on `amount` makes the association a map. -/
def dbGetAwaitingDeposits (st : CoinState) : List (Int × UserId) :=
  st.awaiting.map (fun r => (r.2, r.1))

/-- `DELETE FROM _awaiting_deposits WHERE amount = ?`. -/
def dbDeleteAwaitingDeposit (st : CoinState) (amt : Int) : CoinState :=
  { st with awaiting := st.awaiting.filter (fun r => r.2 != amt) }

/-- `INSERT INTO _awaiting_deposits (userId, amount)`; both columns
carry a unique index, so the insert throws when either value is
already present (the caller catches this and returns `false`). -/
def dbAwaitingInsertConflict (st : CoinState) (u : UserId) (amt : Int) : Bool :=
  st.awaiting.any (fun r => r.1 == u || r.2 == amt)

def dbInsertAwaitingDeposit (st : CoinState) (u : UserId) (amt : Int) : CoinState :=
  { st with awaiting := st.awaiting ++ [(u, amt)] }

/-- `EXISTS (SELECT blockHeight FROM _processed_blocks WHERE blockHash = ?)`. -/
def dbCheckBlockProcessed (st : CoinState) (h : Nat) : Bool :=
  st.processedBlocks.any (fun r => r.1 == h)

/-! ## Errors and adapter results -/

/-- The errors the adapters throw or latch.  JavaScript `Error`
messages are identified by constructor; `referenceError`/`typeError`
stand for the runtime exceptions raised when an undefined variable or a
missing method is referenced. -/
inductive Err where
  | insufficientBackend
  | payToManaged
  | tooSmall
  | alreadyScheduled
  | invalidAddress
  | amountInvalid
  | tagNotInteger
  | notInitialized
  | rootUnsufficient
  | backendRpc (code : Nat)
  | sanityCheck
  | referenceError (name : String)
  | typeError (name : String)
deriving Repr, DecidableEq

/-- The value of a `setAccountPending` call: the source returns
`{address, amount}` (Satoshi and ERC20), or `undefined` (Buterin and
Ripple reach no `return` on the success path). -/
inductive PendOk where
  | addrAmount (address : Addr) (amount : DecimalStr)
  | undef
deriving Repr, DecidableEq

/-- Result of an API method that can also `return false` (the latch
short-circuit of `getAddress`/`setAwaitingDeposit` and the
caught-insert path of `setAwaitingDeposit`). -/
inductive ApiRes (α : Type) where
  | ok (a : α)
  | returnedFalse
  | threw (e : Err)
deriving Repr, DecidableEq

/-! ## Satoshi adapter (`src/satoshi/index.js`) -/

/-- Constructor-time configuration of a Satoshi adapter: `rounded` is
the class field (initialised `true` and never changed),
`minimum_amount` and `static_fee` are already converted to minimal
units. -/
structure SatoshiCfg where
  decimals : Nat
  rounded : Bool
  minimumAmount : Int
  staticFee : Int
  confirmations : Nat
deriving Repr, DecidableEq

/-- `Satoshi.setAccountPending` (lines 468–494): with the latch set,
throw the stored error; convert the amount; fail with `'Insufficient
backend balance'` when it exceeds `backendBalance − pendingSum`; fail
when the destination is a managed address; fail when the amount is
below `minimum_amount + static_fee`; inside one transaction fail with
`'Already have sheduled payout'` when a pending row exists, else insert
it.  Every failure happens before any mutation (the in-transaction
throw rolls back), so the state is returned unchanged on every error.
(`SatoshiDatabase` in this snapshot lacks the `getPendingSum` method its
caller uses; the pending sum is modelled by the `bn_sum` aggregate the
other database classes define for the same query.) -/
def satoshiSetAccountPending (cfg : SatoshiCfg) (latch : Option Err) (st : CoinState)
    (uid : UserId) (address : Addr) (amount : DecimalStr) :
    Except Err PendOk × CoinState :=
  match latch with
  | some e => (.error e, st)
  | none =>
    let amt : Int := (satoshiToBigInt cfg.rounded cfg.decimals amount : Int)
    if st.backendBalance - dbGetPendingSum st < amt then
      (.error .insufficientBackend, st)
    else if (dbGetUserId st address).isSome then
      (.error .payToManaged, st)
    else if amt < cfg.minimumAmount + cfg.staticFee then
      (.error .tooSmall, st)
    else if (dbGetAccountPending st uid).isSome then
      (.error .alreadyScheduled, st)
    else
      (.ok (.addrAmount address amount), dbInsertPending st uid address amt)

/-! ## Buterin adapter (`src/buterin/index.js`) -/

/-- Constructor-time configuration of a Buterin adapter.  `validAddr`
models `Web3.utils.isAddress`. -/
structure ButerinCfg where
  minimumAmount : Int
  staticFee : Int
  validAddr : Addr → Bool

/-- `Buterin.toBigInt`: `Web3.utils.toWei(amount, 'Ether')` — exact
scaling by `10^18`; `toWei` throws on more than 18 fractional digits
(caught by the caller as `'Amount is either not invalid or not
provided'`). -/
def buterinToBigInt (s : DecimalStr) : Option Int :=
  if s.fracLen ≤ 18 then
    some ((s.intPart * 10 ^ 18 + s.frac * 10 ^ (18 - s.fracLen) : Nat) : Int)
  else none

/-- `Buterin.setAccountPending` (lines 534–560): with the latch set,
throw the stored error; reject an invalid receiving address; convert
the amount into `amount_in_units`; fail with `'Already have sheduled
payout'` when a pending row exists; fail when the destination is a
managed address; then evaluate `BigInt(amount_in_wei)` — but no
variable `amount_in_wei` is in scope (the conversion above bound
`amount_in_units`), so the call throws a `ReferenceError` and the
`insertPending` on line 559 is never reached.  No backend-balance
admission check appears anywhere in the function. -/
def buterinSetAccountPending (cfg : ButerinCfg) (latch : Option Err) (st : CoinState)
    (uid : UserId) (address : Addr) (amount : DecimalStr) :
    Except Err PendOk × CoinState :=
  match latch with
  | some e => (.error e, st)
  | none =>
    if !cfg.validAddr address then (.error .invalidAddress, st)
    else
      match buterinToBigInt amount with
      | none => (.error .amountInvalid, st)
      | some _ =>
        if (dbGetAccountPending st uid).isSome then (.error .alreadyScheduled, st)
        else if (dbGetUserId st address).isSome then (.error .payToManaged, st)
        else (.error (.referenceError ("amount_in_wei")), st)

/-! ## ERC20 adapter (`src/erc20/index.js`) -/

/-- Constructor-time configuration of an ERC20 adapter. -/
structure ERC20Cfg where
  decimals : Nat
  rounded : Bool
  minimumAmount : Int
  staticFee : Int
  rootAddress : Addr
  validAddr : Addr → Bool

/-- `ERC20.setAccountPending` (lines 603–631): latch check, address
check, conversion, the `'Insufficient backend balance'` admission
check against `backendBalance − pendingSum`, the managed-root-address
check, the minimum check, and the transactional
already-scheduled/insert step, in that order. -/
def erc20SetAccountPending (cfg : ERC20Cfg) (latch : Option Err) (st : CoinState)
    (uid : UserId) (address : Addr) (amount : DecimalStr) :
    Except Err PendOk × CoinState :=
  match latch with
  | some e => (.error e, st)
  | none =>
    if !cfg.validAddr address then (.error .invalidAddress, st)
    else
      let amt : Int := (satoshiToBigInt cfg.rounded cfg.decimals amount : Int)
      if st.backendBalance - dbGetPendingSum st < amt then
        (.error .insufficientBackend, st)
      else if address == cfg.rootAddress then
        (.error .payToManaged, st)
      else if amt < cfg.minimumAmount + cfg.staticFee then
        (.error .tooSmall, st)
      else if (dbGetAccountPending st uid).isSome then
        (.error .alreadyScheduled, st)
      else
        (.ok (.addrAmount address amount), dbInsertPending st uid address amt)

/-! ## Ripple adapter (`src/unnamed/part_000`) -/

/-- Constructor-time configuration of a Ripple adapter; `rootAddress`
is `None` until `init()` has resolved it. -/
structure RippleCfg where
  decimals : Nat
  minimumAmount : Int
  rootAddress : Option Addr
deriving Repr, DecidableEq

/-- `Ripple.setAccountPending` (part_000 lines 262–279): latch check,
initialisation check, destination-tag integer check, already-scheduled
check, managed-root-address check, minimum check, then the insert (with
tag `−1` when none was given).  There is no backend-balance admission
check. -/
def rippleSetAccountPending (cfg : RippleCfg) (latch : Option Err) (st : CoinState)
    (uid : UserId) (address : Addr) (amount : DecimalStr) (tagOk : Bool) :
    Except Err PendOk × CoinState :=
  match latch with
  | some e => (.error e, st)
  | none =>
    match cfg.rootAddress with
    | none => (.error .notInitialized, st)
    | some root =>
      if !tagOk then (.error .tagNotInteger, st)
      else if (dbGetAccountPending st uid).isSome then (.error .alreadyScheduled, st)
      else if address == root then (.error .payToManaged, st)
      else
        let amt : Int := (rippleToBigInt cfg.decimals amount : Int)
        if amt < cfg.minimumAmount then (.error .tooSmall, st)
        else (.ok .undef, dbInsertPending st uid address amt)

/-! ## Deposit-intent operations -/

/-- `Satoshi.getAddress` (lines 375–385): with the latch set, `return
false`.  Otherwise return the stored address, or obtain a fresh one
from the wallet (`newAddr`) and record it. -/
def satoshiGetAddress (latch : Option Err) (st : CoinState) (uid : UserId)
    (newAddr : Addr) : ApiRes Addr × CoinState :=
  match latch with
  | some _ => (.returnedFalse, st)
  | none =>
    match dbGetAddress st uid with
    | some a => (.ok a, st)
    | none => (.ok newAddr, { st with addresses := st.addresses ++ [(uid, newAddr)] })

/-- `Buterin.getAddress` (lines 418–434): same shape; the fresh address
is the HD derivation at `getTopIdx() + 1`, abstracted by `hdAddr`. -/
def buterinGetAddress (latch : Option Err) (st : CoinState) (uid : UserId)
    (hdAddr : Nat → Addr) : ApiRes Addr × CoinState :=
  match latch with
  | some _ => (.returnedFalse, st)
  | none =>
    match dbGetAddress st uid with
    | some a => (.ok a, st)
    | none =>
      let a := hdAddr (st.addresses.length + 1)
      (.ok a, { st with addresses := st.addresses ++ [(uid, a)] })

/-- The amount-uniqueness loop of `ERC20.setAwaitingDeposit` (lines
458–468): `while (true)` — break when there are no awaiting deposits or
the current amount is unreserved, else draw `adjustment =
random(8 bits) − 128` and set `amount -= adjustment`.  The source loop
is unbounded; `fuel` counts loop iterations still allowed, and `none`
means the loop has not terminated within that many iterations.
`adj i` is the value drawn at the `i`-th iteration. -/
def perturbLoop (reserved : List Int) (adj : Nat → Int) :
    Nat → Int → Nat → Option Int
  | 0, _, _ => none
  | fuel + 1, amount, i =>
    if reserved.isEmpty || !reserved.contains amount then some amount
    else perturbLoop reserved adj fuel (amount - adj i) (i + 1)

/-- The result of `ERC20.setAwaitingDeposit`. -/
inductive AwaitOk where
  | handle (address : Addr) (amount : DecimalStr)
deriving Repr, DecidableEq

/-- `ERC20.setAwaitingDeposit` (lines 426–483): with the latch set,
`return false`; throw `'Amount is too small'` when
`amount + 128 < minimum_amount`; inside one transaction run the
uniqueness loop against the active handles, then insert the resulting
amount — when the insert violates a unique index (the user already
holds a handle) the error is caught and `false` is returned.  The
overall result is `none` when the unbounded loop has not terminated
within `fuel` iterations. -/
def erc20SetAwaitingDeposit (cfg : ERC20Cfg) (latch : Option Err) (st : CoinState)
    (uid : UserId) (amount : DecimalStr) (adj : Nat → Int) (fuel : Nat) :
    Option (ApiRes AwaitOk × CoinState) :=
  match latch with
  | some _ => some (.returnedFalse, st)
  | none =>
    let amt : Int := (satoshiToBigInt cfg.rounded cfg.decimals amount : Int)
    if amt + 128 < cfg.minimumAmount then some (.threw .tooSmall, st)
    else
      let reserved := (dbGetAwaitingDeposits st).map (·.1)
      match perturbLoop reserved adj fuel amt 0 with
      | none => none
      | some final =>
        if dbAwaitingInsertConflict st uid final then some (.returnedFalse, st)
        else
          some (.ok (.handle cfg.rootAddress (satoshiFromBigInt cfg.decimals final.toNat)),
                dbInsertAwaitingDeposit st uid final)

/-- The perturbation loop terminates on the given inputs (for some
number of iterations it returns a value). -/
def PerturbTerminates (reserved : List Int) (adj : Nat → Int) (amount : Int) : Prop :=
  ∃ fuel a, perturbLoop reserved adj fuel amount 0 = some a

/-! ## Account statistics (`getAccountInfo`) -/

/-- The `{deposit, withdrawal, pending?}` object of
`Satoshi.getAccountInfo` / `ERC20.getAccountInfo`. -/
structure AccountInfo where
  deposit : DecimalStr
  withdrawal : DecimalStr
  pending : Option (DecimalStr × Addr)
deriving Repr, DecidableEq

/-- `Satoshi.getAccountInfo` (lines 396–411): read the totals
(defaulting to zero), format them at the coin's precision, and attach
the pending payout, if any, with its amount formatted.  The function
performs no latch check and throws nothing. -/
def satoshiGetAccountInfo (cfg : SatoshiCfg) (st : CoinState) (uid : UserId) :
    AccountInfo :=
  let s := dbGetAccountStats st uid
  { deposit := satoshiFromBigInt cfg.decimals s.deposit.toNat
    withdrawal := satoshiFromBigInt cfg.decimals s.withdrawal.toNat
    pending := (dbGetAccountPending st uid).map
      (fun r => (satoshiFromBigInt cfg.decimals r.amount.toNat, r.address)) }

/-- `ERC20.getAccountInfo` (lines 516–531): identical shape. -/
def erc20GetAccountInfo (cfg : ERC20Cfg) (st : CoinState) (uid : UserId) :
    AccountInfo :=
  let s := dbGetAccountStats st uid
  { deposit := satoshiFromBigInt cfg.decimals s.deposit.toNat
    withdrawal := satoshiFromBigInt cfg.decimals s.withdrawal.toNat
    pending := (dbGetAccountPending st uid).map
      (fun r => (satoshiFromBigInt cfg.decimals r.amount.toNat, r.address)) }

/-- `Buterin.getAccountInfo` (lines 445–458): after parsing the user
identifier it evaluates `this.fromBigInti(withdrawal)` — the class has
no method `fromBigInti` (the conversion method is `fromBigInt`), so the
call raises a `TypeError` for every user; no value is ever returned. -/
def buterinGetAccountInfo (st : CoinState) (uid : UserId) :
    Except Err AccountInfo :=
  let _ := dbGetAccountStats st uid
  .error (.typeError ("this.fromBigInti is not a function"))

/-! ## Pending-payout processing (`processPending`) -/

/-- A `ProcessedWithdrawalEvent` as pushed into the `processed` sink
(amount in minimal units; the source stores its decimal rendering). -/
structure PWEvent where
  userId : UserId
  amount : Int
  txHash : Nat
deriving Repr, DecidableEq

/-- A `RejectedWithdrawalEvent` as pushed into the `rejected` sink. -/
structure RWEvent where
  userId : UserId
  amount : Int
  address : Addr
deriving Repr, DecidableEq

/-- Credit `withdrawal` of the user's account totals and of the global
totals by `amt`, delete the user's pending row, and insert a
withdrawal-transaction row — the body of the success-path `atomic` of
every engine's `processPending`. -/
def commitWithdrawal (st : CoinState) (u : UserId) (amt : Int) (txid : Nat)
    (address : Addr) : CoinState :=
  let s := dbGetAccountStats st u
  let st := dbSetAccountStats st u ⟨s.deposit, s.withdrawal + amt⟩
  let st := { st with globalStats := ⟨st.globalStats.deposit, st.globalStats.withdrawal + amt⟩ }
  let st := dbDeletePending st u
  { st with wtxs := st.wtxs ++ [⟨u, amt, txid, address⟩] }

/-- Broadcast outcome for one Satoshi pending payout: the destination
failed `validateAddress` (`isvalid` false, no exception), the backend
RPC threw, or `sendToAddress` returned a transaction id. -/
inductive SatOutcome where
  | invalid
  | rpcErr (code : Nat)
  | sent (txid : Nat)

/-- `Satoshi.processPending` (lines 199–321).  The signature is
`processPending(processed = [])` — there is no `rejected` parameter.
Per pending row:
* a backend RPC error is returned and latched (lines 251–258);
* when `validateAddress` reports the address invalid, the code runs
  `this.db.deletePending(pending.userId)` where `pending` is the whole
  array (`pending.userId` is `undefined`, so no row is deleted) and then
  `rejected.push(...)` — `rejected` is not defined, so a
  `ReferenceError` escapes to the outer catch, which latches it
  (lines 260–276);
* on success the withdrawal is committed and the event pushed, after
  which `console.log(..., backendBalance)` references the undefined
  `backendBalance` (a `pollBackend`-scope variable), so a
  `ReferenceError` again escapes to the outer catch and latches
  (lines 279–310).
The wallet unlock (lines 215–218) is treated as succeeding. -/
def satoshiProcessPending (latch : Option Err) (st : CoinState)
    (outcome : UserId → SatOutcome) :
    Option Err × CoinState × List PWEvent :=
  match latch with
  | some e => (some e, st, [])
  | none =>
    match st.pending with
    | [] => (none, st, [])
    | r :: _ =>
      match outcome r.userId with
      | .rpcErr c => (some (.backendRpc c), st, [])
      | .invalid => (some (.referenceError ("rejected")), st, [])
      | .sent txid =>
        let st1 := commitWithdrawal st r.userId r.amount txid r.address
        (some (.referenceError ("backendBalance")), st1, [⟨r.userId, r.amount, txid⟩])

/-- Broadcast outcome for one account-based pending payout:
`sendSignedTransaction` rejected, or it confirmed with a receipt. -/
inductive EthOutcome where
  | rejected
  | confirmed (txid : Nat)

/-- Chain-side inputs of one `Buterin.processPending` pass. -/
structure BChain where
  rootPendingNonce : Nat
  rootConfirmedNonce : Nat
  rootBalance : Int
  gasValue : UserId → Int
  outcome : UserId → EthOutcome

/-- `Buterin.processPending` (lines 196–358), over the snapshot of
pending rows read at entry.  Per row: break (without latching) when the
root account's pending and confirmed nonces differ; throw — latched by
the outer catch — when `pending.amount >= rootBalance`; on a rejected
submission delete the row, push a `RejectedWithdrawalEvent` (amount
`pending.amount − gasValue`) and continue; on success commit the
withdrawal of `pending.amount − gasValue` and push the processed
event. -/
def buterinProcessPendingLoop (ch : BChain) :
    List PendingRow → CoinState → List PWEvent → List RWEvent →
    Option Err × CoinState × List PWEvent × List RWEvent
  | [], st, processed, rejected => (none, st, processed, rejected)
  | r :: rest, st, processed, rejected =>
    if ch.rootPendingNonce != ch.rootConfirmedNonce then
      (none, st, processed, rejected)
    else
      let withdrawalAmount := r.amount - ch.gasValue r.userId
      if ch.rootBalance ≤ r.amount then
        (some .rootUnsufficient, st, processed, rejected)
      else
        match ch.outcome r.userId with
        | .rejected =>
          buterinProcessPendingLoop ch rest (dbDeletePending st r.userId)
            processed (rejected ++ [⟨r.userId, withdrawalAmount, r.address⟩])
        | .confirmed txid =>
          buterinProcessPendingLoop ch rest
            (commitWithdrawal st r.userId withdrawalAmount txid r.address)
            (processed ++ [⟨r.userId, withdrawalAmount, txid⟩]) rejected

def buterinProcessPending (latch : Option Err) (st : CoinState) (ch : BChain) :
    Option Err × CoinState × List PWEvent × List RWEvent :=
  match latch with
  | some e => (some e, st, [], [])
  | none => buterinProcessPendingLoop ch st.pending st [] []

/-- `ERC20.processPending` (lines 207–349), over the snapshot of
pending rows.  Per row: on a rejected submission delete the row, push a
`RejectedWithdrawalEvent` (amount `pending.amount − static_fee`, the
signed transfer amount) and continue; on success commit the withdrawal
of `pending.amount` and push the processed event. -/
def erc20ProcessPendingLoop (cfg : ERC20Cfg) (outcome : UserId → EthOutcome) :
    List PendingRow → CoinState → List PWEvent → List RWEvent →
    Option Err × CoinState × List PWEvent × List RWEvent
  | [], st, processed, rejected => (none, st, processed, rejected)
  | r :: rest, st, processed, rejected =>
    match outcome r.userId with
    | .rejected =>
      erc20ProcessPendingLoop cfg outcome rest (dbDeletePending st r.userId)
        processed (rejected ++ [⟨r.userId, r.amount - cfg.staticFee, r.address⟩])
    | .confirmed txid =>
      erc20ProcessPendingLoop cfg outcome rest
        (commitWithdrawal st r.userId r.amount txid r.address)
        (processed ++ [⟨r.userId, r.amount, txid⟩]) rejected

def erc20ProcessPending (cfg : ERC20Cfg) (latch : Option Err) (st : CoinState)
    (outcome : UserId → EthOutcome) :
    Option Err × CoinState × List PWEvent × List RWEvent :=
  match latch with
  | some e => (some e, st, [], [])
  | none => erc20ProcessPendingLoop cfg outcome st.pending st [] []

/-! ## Deposit polling (`pollBackend`) -/

/-- A `ProcessedDepositEvent` as pushed into the `processed` sink. -/
structure DEvent where
  userId : UserId
  amount : Int
  txHash : Nat
deriving Repr, DecidableEq

/-- One record of the incoming `Transfer` log of the ERC20 engine
(already confined to the root address by the topic filter and sorted
ascending by block number). -/
structure ERecord where
  amount : Int
  txHash : Nat
  blockNumber : Nat
  timestamp : Nat
deriving Repr, DecidableEq

/-- One iteration of the `ERC20.pollBackend` loop (lines 135–192): skip
a record below the minimum or whose value no handle of the
start-of-poll snapshot reserves; skip a recorded `txHash`; otherwise,
in one transaction, credit the account and global deposit totals,
delete the awaiting-deposit row by amount, insert the transaction row,
and push the event.  The `has`/`get` lookups run against the snapshot
map; `checkTransactionExists` runs against the live store. -/
def erc20PollStep (cfg : ERC20Cfg) (snapshot : List (Int × UserId))
    (acc : CoinState × List DEvent) (r : ERecord) : CoinState × List DEvent :=
  let (st, evs) := acc
  if r.amount < cfg.minimumAmount then (st, evs)
  else
    match snapshot.find? (fun p => p.1 == r.amount) with
    | none => (st, evs)
    | some p =>
      if dbCheckTransactionExists st r.txHash then (st, evs)
      else
        let uid := p.2
        let s := dbGetAccountStats st uid
        let st := dbSetAccountStats st uid ⟨s.deposit + r.amount, s.withdrawal⟩
        let st := { st with globalStats :=
          ⟨st.globalStats.deposit + r.amount, st.globalStats.withdrawal⟩ }
        let st := dbDeleteAwaitingDeposit st r.amount
        let st := { st with txs := st.txs ++ [⟨uid, r.amount, r.txHash, r.blockNumber⟩] }
        (st, evs ++ [⟨uid, r.amount, r.txHash⟩])

/-- `ERC20.pollBackend` (lines 101–205): with the latch set, return the
stored error and do nothing; return when no handle awaits a deposit or
the log is empty; otherwise run the loop over the records against the
snapshot of awaiting deposits taken at entry, and finally store the
root `balanceOf` as the backend balance. -/
def erc20PollBackend (cfg : ERC20Cfg) (latch : Option Err) (st : CoinState)
    (records : List ERecord) (chainBalance : Int) :
    Option Err × CoinState × List DEvent :=
  match latch with
  | some e => (some e, st, [])
  | none =>
    if st.awaiting.isEmpty then (none, st, [])
    else if records.isEmpty then (none, st, [])
    else
      let snapshot := dbGetAwaitingDeposits st
      let (st1, evs) := records.foldl (erc20PollStep cfg snapshot) (st, [])
      (none, { st1 with backendBalance := chainBalance }, evs)

/-- One record of the UTXO daemon's `listtransactions` output. -/
structure SRecord where
  isReceive : Bool
  amount : DecimalStr
  confirmations : Nat
  address : Addr
  txid : Nat
  blockhash : Nat
  blockheight : Option Nat
  blocktime : Nat
deriving Repr, DecidableEq

/-- A deposit update accumulated during the Satoshi scan (one
`makeTransaction` closure, no longer executed but kept for the final
outer transaction). -/
structure SChange where
  userId : UserId
  amountSat : Int
  txid : Nat
  blockhash : Nat
  height : Nat
deriving Repr, DecidableEq

/-- The record filter of `Satoshi.pollBackend` (lines 87–177), one page
iterated in reverse: keep `category == receive` records meeting the
value and confirmation limits whose address belongs to a user, resolve
a missing block height through `getblockheader` (`heightOf`), stop all
paging when the watermark block is reached, and skip transactions
already recorded for that user.  Checks run against the store as of
scan start (`st0`); the accumulated closures are applied later. -/
def satoshiScanRecs (cfg : SatoshiCfg) (st0 : CoinState) (heightOf : Nat → Nat) :
    List SRecord → List SChange × Bool
  | [] => ([], false)
  | r :: rest =>
    if !r.isReceive then satoshiScanRecs cfg st0 heightOf rest
    else
      let amt : Int := (satoshiToBigInt cfg.rounded cfg.decimals r.amount : Int)
      if amt < cfg.minimumAmount || r.confirmations < cfg.confirmations then
        satoshiScanRecs cfg st0 heightOf rest
      else
        match dbGetUserId st0 r.address with
        | none => satoshiScanRecs cfg st0 heightOf rest
        | some uid =>
          let height := r.blockheight.getD (heightOf r.blockhash)
          if dbCheckBlockProcessed st0 r.blockhash then ([], true)
          else if dbCheckTransactionExistsSat st0 uid r.txid then
            satoshiScanRecs cfg st0 heightOf rest
          else
            let (cs, stop) := satoshiScanRecs cfg st0 heightOf rest
            (⟨uid, amt, r.txid, r.blockhash, height⟩ :: cs, stop)

/-- The paging loop of `Satoshi.pollBackend`: concatenate the per-page
changes (each page iterated in reverse by `satoshiScanRecs`) until a
page hits the watermark. -/
def satoshiScan (cfg : SatoshiCfg) (st0 : CoinState) (heightOf : Nat → Nat) :
    List (List SRecord) → List SChange
  | [] => []
  | page :: rest =>
    let (cs, stop) := satoshiScanRecs cfg st0 heightOf page.reverse
    if stop then cs else cs ++ satoshiScan cfg st0 heightOf rest

/-- Applying one accumulated Satoshi change: credit the account and
global deposit totals, insert the transaction row, record the block as
processed if it is not yet, and push the event. -/
def satoshiApplyChange (acc : CoinState × List DEvent) (c : SChange) :
    CoinState × List DEvent :=
  let (st, evs) := acc
  let s := dbGetAccountStats st c.userId
  let st := dbSetAccountStats st c.userId ⟨s.deposit + c.amountSat, s.withdrawal⟩
  let st := { st with globalStats :=
    ⟨st.globalStats.deposit + c.amountSat, st.globalStats.withdrawal⟩ }
  let st := { st with txs := st.txs ++ [⟨c.userId, c.amountSat, c.txid, c.height⟩] }
  let st :=
    if dbCheckBlockProcessed st c.blockhash then st
    else { st with processedBlocks := st.processedBlocks ++ [(c.blockhash, c.height)] }
  (st, evs ++ [⟨c.userId, c.amountSat, c.txid⟩])

/-- `Satoshi.pollBackend` (lines 55–197): with the latch set, return
the stored error and do nothing; otherwise scan the daemon's pages,
and, when any changes were accumulated, apply them all in one outer
transaction together with the new backend balance (`getbalance`). -/
def satoshiPollBackend (cfg : SatoshiCfg) (latch : Option Err) (st : CoinState)
    (pages : List (List SRecord)) (heightOf : Nat → Nat)
    (chainBalance : DecimalStr) :
    Option Err × CoinState × List DEvent :=
  match latch with
  | some e => (some e, st, [])
  | none =>
    let changes := satoshiScan cfg st heightOf pages
    if changes.isEmpty then (none, st, [])
    else
      let (st1, evs) := changes.foldl satoshiApplyChange (st, [])
      (none, { st1 with backendBalance :=
        (satoshiToBigInt cfg.rounded cfg.decimals chainBalance : Int) }, evs)

/-- Chain-side inputs of one `Buterin.pollBackend` pass: per managed
address, whether the HD re-derivation matches (`sanityOk`), the three
balances, the total gas value of the sweep, and the receipt data. -/
structure BDepChain where
  sanityOk : Addr → Bool
  pendingBal : Addr → Int
  latestBal : Addr → Int
  confirmedBal : Addr → Int
  gasValue : Addr → Int
  txid : Addr → Nat
  blockNumber : Addr → Nat

/-- `Buterin.pollBackend` (lines 53–194), over the snapshot of managed
addresses: a failed derivation sanity check throws and is latched; an
address with unequal pending/latest/confirmed balances, or below the
minimum, is skipped; otherwise the balance minus gas is swept to the
root, and in one transaction the deposit totals are credited, the
transaction row inserted and the event pushed. -/
def buterinPollBackendLoop (cfg : ButerinCfg) (ch : BDepChain) :
    List (UserId × Addr) → CoinState → List DEvent →
    Option Err × CoinState × List DEvent
  | [], st, evs => (none, st, evs)
  | (uid, a) :: rest, st, evs =>
    if !ch.sanityOk a then (some .sanityCheck, st, evs)
    else if ch.pendingBal a != ch.confirmedBal a || ch.pendingBal a != ch.latestBal a then
      buterinPollBackendLoop cfg ch rest st evs
    else if ch.pendingBal a < cfg.minimumAmount then
      buterinPollBackendLoop cfg ch rest st evs
    else
      let amt := ch.pendingBal a - ch.gasValue a
      let s := dbGetAccountStats st uid
      let st := dbSetAccountStats st uid ⟨s.deposit + amt, s.withdrawal⟩
      let st := { st with globalStats :=
        ⟨st.globalStats.deposit + amt, st.globalStats.withdrawal⟩ }
      let st := { st with txs := st.txs ++ [⟨uid, amt, ch.txid a, ch.blockNumber a⟩] }
      buterinPollBackendLoop cfg ch rest st (evs ++ [⟨uid, amt, ch.txid a⟩])

def buterinPollBackend (cfg : ButerinCfg) (latch : Option Err) (st : CoinState)
    (ch : BDepChain) : Option Err × CoinState × List DEvent :=
  match latch with
  | some e => (some e, st, [])
  | none =>
    if st.addresses.isEmpty then (none, st, [])
    else buterinPollBackendLoop cfg ch st.addresses st []

/-! ## Outbox tables and their drain handlers (`src/unnamed/part_008`) -/

/-- A row of `processed_deposits` / `processed_withdrawals` /
`rejected_withdrawals`: `(userId, coin, json)`. -/
structure OutRow where
  userId : UserId
  coin : String
  json : String
deriving Repr, DecidableEq

/-- The `WHERE userId = ? AND coin = ?` predicate shared by the three
select and the three delete statements. -/
def outMatches (uid : UserId) (coin : String) (r : OutRow) : Bool :=
  r.userId == uid && r.coin == coin

/-- The `listProcessedDeposits` / `listProcessedWithdrawals` /
`listRejectedWithdrawals` handlers (part_008 lines 158–186): inside one
`db.transaction`, select all rows matching `(userId, coin)`, run the
delete with the same predicate, and return the selected rows.  The
first component is the returned list, the second the table as left
behind. -/
def outboxDrain (tbl : List OutRow) (uid : UserId) (coin : String) :
    List OutRow × List OutRow :=
  (tbl.filter (outMatches uid coin), tbl.filter (fun r => !outMatches uid coin r))

/-- The pending table holds at most one row per user (its `userId`
primary key): the user ids of the rows are pairwise distinct. -/
def PendingKeysDistinct (st : CoinState) : Prop :=
  (st.pending.map (·.userId)).Nodup

/-- The empty per-coin state. -/
def emptyCoinState : CoinState := ⟨[], [], [], [], [], [], ⟨0, 0⟩, 0, []⟩

/-- A state with one pending payout of `amt` for user 1 and a recorded
backend balance of `bb`. -/
def onePendingState (amt bb : Int) : CoinState :=
  { emptyCoinState with pending := [⟨1, amt, "P"⟩], backendBalance := bb }

/-- A state in which user 7 awaits a deposit of 1000000 minimal units. -/
def oneAwaitingState : CoinState :=
  { emptyCoinState with awaiting := [(7, 1000000)] }

/-- A state in which users 10 and 11 await deposits of 1000000 and
1000100 minimal units. -/
def twoAwaitingState : CoinState :=
  { emptyCoinState with awaiting := [(10, 1000000), (11, 1000100)] }

/-- A state in which user 1 has a cumulative deposit of 5000 minimal
units. -/
def oneStatsState : CoinState :=
  { emptyCoinState with accountStats := [(1, ⟨5000, 0⟩)] }

/-! # Theorems -/

/-- Claim C3: The outbox drain operations return all stored rows matching
the given `(coin, userId)` pair and delete exactly those rows within
the same atomic unit: an immediate second call with the same arguments
returns the empty list, and rows for other `(coin, userId)` pairs are
left in the table. -/
theorem outbox_drain_pull_once (tbl : List OutRow) (uid : UserId) (coin : String) :
    (∀ r, r ∈ (outboxDrain tbl uid coin).1 ↔ r ∈ tbl ∧ outMatches uid coin r = true) ∧
    (∀ r, r ∈ (outboxDrain tbl uid coin).2 ↔ r ∈ tbl ∧ outMatches uid coin r = false) ∧
    (outboxDrain (outboxDrain tbl uid coin).2 uid coin).1 = [] := by
  refine ⟨?_, ?_, ?_⟩
  · intro r
    simp [outboxDrain, List.mem_filter]
  · intro r
    simp [outboxDrain, List.mem_filter]
  · simp only [outboxDrain]
    rw [List.filter_eq_nil_iff]
    intro r hr
    rw [List.mem_filter] at hr
    simp only [Bool.not_eq_true'] at hr
    simp [hr.2]

/-- Helper: the codec's truncating branch agrees with the spec-side
truncation. -/
theorem satoshiToBigInt_truncate (d : Nat) (t : DecimalStr) (h : d < t.fracLen) :
    satoshiToBigInt false d t = specTruncate d t := by
  unfold satoshiToBigInt specTruncate
  rw [if_neg (by omega), if_neg (by simp), add_zero]
  have hke : (10:Nat) ^ t.fracLen = 10 ^ (t.fracLen - d) * 10 ^ d := by
    rw [← pow_add]; congr 1; omega
  have hstep : (t.intPart * 10 ^ t.fracLen + t.frac) * 10 ^ d
      = (10 ^ t.fracLen) * (t.intPart * 10 ^ d) + t.frac * 10 ^ d := by ring
  have hpos : (0:Nat) < 10 ^ t.fracLen := by positivity
  rw [hstep, Nat.mul_add_div hpos]
  congr 1
  rw [hke, show 10 ^ (t.fracLen - d) * 10 ^ d = 10 ^ d * 10 ^ (t.fracLen - d) from
    mul_comm _ _]
  rw [show t.frac * 10 ^ d = 10 ^ d * t.frac from mul_comm _ _]
  have h10d : (0:Nat) < 10 ^ d := by positivity
  exact (Nat.mul_div_mul_left _ _ h10d).symm

/-- Helper: rounding a fractional remainder by its leading digit is
half-up rounding of the quotient. -/
theorem halfUp_digit_core (f hh : Nat) (hh0 : 0 < hh) :
    f / (10 * hh) + (if 5 ≤ f / hh % 10 then 1 else 0)
      = (2 * f + 10 * hh) / (2 * (10 * hh)) := by
  have hq := Nat.div_add_mod f (10 * hh)
  set q := f / (10 * hh) with hqdef
  set r := f % (10 * hh) with hrdef
  have hr : r < 10 * hh := Nat.mod_lt _ (by omega)
  have hf2 : f = hh * (10 * q) + r := by rw [← hq]; ring
  have hfh : f / hh = 10 * q + r / hh := by
    rw [hf2, Nat.mul_add_div hh0]
  have hrl : r / hh < 10 := by
    rw [Nat.div_lt_iff_lt_mul hh0]; omega
  have hmod : f / hh % 10 = r / hh := by
    rw [hfh, Nat.mul_add_mod]
    exact Nat.mod_eq_of_lt hrl
  have hsplit : 2 * f + 10 * hh = (2 * (10 * hh)) * q + (2 * r + 10 * hh) := by
    rw [hf2]; ring
  have hdiv : (2 * f + 10 * hh) / (2 * (10 * hh))
      = q + (2 * r + 10 * hh) / (2 * (10 * hh)) := by
    rw [hsplit, Nat.mul_add_div (by omega)]
  rw [hmod, hdiv]
  by_cases hc : 5 ≤ r / hh
  · rw [if_pos hc]
    have h5 : 5 * hh ≤ r := (Nat.le_div_iff_mul_le hh0).mp hc
    have h1 : (2 * r + 10 * hh) / (2 * (10 * hh)) = 1 := by
      apply Nat.div_eq_of_lt_le
      · omega
      · omega
    omega
  · rw [if_neg hc]
    have h5 : r < 5 * hh := by
      by_contra hcon
      exact hc ((Nat.le_div_iff_mul_le hh0).mpr (by omega))
    have h1 : (2 * r + 10 * hh) / (2 * (10 * hh)) = 0 := Nat.div_eq_of_lt (by omega)
    omega

/-- Helper: the codec's rounding branch agrees with the spec-side
half-up rounding. -/
theorem satoshiToBigInt_halfUp (d : Nat) (t : DecimalStr) (h : d < t.fracLen) :
    satoshiToBigInt true d t = specHalfUp d t := by
  have hh0 : (0:Nat) < 10 ^ (t.fracLen - d - 1) := Nat.pos_pow_of_pos _ (by norm_num)
  have he10 : (10:Nat) ^ (t.fracLen - d) = 10 * 10 ^ (t.fracLen - d - 1) := by
    conv_lhs => rw [show t.fracLen - d = (t.fracLen - d - 1) + 1 from by omega]
    rw [pow_succ, mul_comm]
  have hke : (10:Nat) ^ t.fracLen = 10 ^ (t.fracLen - d) * 10 ^ d := by
    rw [← pow_add]; congr 1; omega
  have hlhs : satoshiToBigInt true d t
      = t.intPart * 10 ^ d + t.frac / 10 ^ (t.fracLen - d)
        + (if 5 ≤ t.frac / 10 ^ (t.fracLen - d - 1) % 10 then 1 else 0) := by
    unfold satoshiToBigInt
    rw [if_neg (by omega)]
    simp only [eq_self_iff_true, true_and]
  have hrhs : specHalfUp d t
      = t.intPart * 10 ^ d
        + (2 * t.frac + 10 ^ (t.fracLen - d)) / (2 * 10 ^ (t.fracLen - d)) := by
    unfold specHalfUp
    have hnum : 2 * (t.intPart * 10 ^ t.fracLen + t.frac) * 10 ^ d + 10 ^ t.fracLen
        = (2 * 10 ^ t.fracLen) * (t.intPart * 10 ^ d)
          + 10 ^ d * (2 * t.frac + 10 ^ (t.fracLen - d)) := by
      rw [hke]; ring
    have hpos : (0:Nat) < 2 * 10 ^ t.fracLen := by positivity
    rw [hnum, Nat.mul_add_div hpos]
    congr 1
    rw [hke, show 2 * (10 ^ (t.fracLen - d) * 10 ^ d)
      = 10 ^ d * (2 * 10 ^ (t.fracLen - d)) from by ring]
    have h10d : (0:Nat) < 10 ^ d := by positivity
    exact Nat.mul_div_mul_left _ _ h10d
  rw [hlhs, hrhs, he10, add_assoc, halfUp_digit_core t.frac _ hh0]

/-- Helper: the Satoshi/ERC20 codec round-trips literals with at most
`decimals` fractional digits, up to zero padding. -/
theorem satoshi_roundTrip (r : Bool) (d : Nat) (s : DecimalStr)
    (hk : s.fracLen ≤ d) (hwf : s.WF) :
    satoshiFromBigInt d (satoshiToBigInt r d s) = padFrac d s := by
  have hlt : s.frac * 10 ^ (d - s.fracLen) < 10 ^ d := by
    have h1 : s.frac * 10 ^ (d - s.fracLen) < 10 ^ s.fracLen * 10 ^ (d - s.fracLen) := by
      have hp : (0:Nat) < 10 ^ (d - s.fracLen) := by positivity
      exact (Nat.mul_lt_mul_right hp).mpr hwf
    rw [← pow_add] at h1
    have heq : s.fracLen + (d - s.fracLen) = d := by omega
    rwa [heq] at h1
  unfold satoshiToBigInt satoshiFromBigInt padFrac
  rw [if_pos hk]
  have h0 : (0:Nat) < 10 ^ d := by positivity
  have hcomm : s.intPart * 10 ^ d + s.frac * 10 ^ (d - s.fracLen)
      = 10 ^ d * s.intPart + s.frac * 10 ^ (d - s.fracLen) := by ring
  simp only [DecimalStr.mk.injEq]
  refine ⟨?_, ?_, trivial⟩
  · rw [hcomm, Nat.mul_add_div h0, Nat.div_eq_of_lt hlt, add_zero]
  · rw [hcomm, Nat.mul_add_mod, Nat.mod_eq_of_lt hlt]

/-- Helper: the part_000 Ripple codec also round-trips literals with at
most `decimals` fractional digits (its divergence is confined to longer
literals). -/
theorem ripple_roundTrip (d : Nat) (s : DecimalStr)
    (hk : s.fracLen ≤ d) (hwf : s.WF) :
    rippleFromBigInt d (rippleToBigInt d s) = padFrac d s := by
  have hlt : s.frac * 10 ^ (d - s.fracLen) < 10 ^ d := by
    have h1 : s.frac * 10 ^ (d - s.fracLen) < 10 ^ s.fracLen * 10 ^ (d - s.fracLen) := by
      have hp : (0:Nat) < 10 ^ (d - s.fracLen) := by positivity
      exact (Nat.mul_lt_mul_right hp).mpr hwf
    rw [← pow_add] at h1
    have heq : s.fracLen + (d - s.fracLen) = d := by omega
    rwa [heq] at h1
  unfold rippleToBigInt rippleFromBigInt padFrac
  rw [if_pos hk]
  have h0 : (0:Nat) < 10 ^ d := by positivity
  have hcomm : s.intPart * 10 ^ d + s.frac * 10 ^ (d - s.fracLen)
      = 10 ^ d * s.intPart + s.frac * 10 ^ (d - s.fracLen) := by ring
  simp only [DecimalStr.mk.injEq]
  refine ⟨?_, ?_, trivial⟩
  · rw [hcomm, Nat.mul_add_div h0, Nat.div_eq_of_lt hlt, add_zero]
  · rw [hcomm, Nat.mul_add_mod, Nat.mod_eq_of_lt hlt]

/-- Claim C9 (counterexample): The tag-based (Ripple) adapter's `toBigInt`
of `src/unnamed/part_000` applies no rounding mode at all: at
`decimals = 6`, the literal `1.2345678` (seven fractional digits) is
converted to `12345678` minimal units — ten times the represented
value — which is neither the truncation `1234567` nor the half-up
rounding `1234568`. -/
theorem ripple_codec_no_rounding_counterexample :
    rippleToBigInt 6 ⟨1, 2345678, 7⟩ = 12345678 ∧
    specTruncate 6 ⟨1, 2345678, 7⟩ = 1234567 ∧
    specHalfUp 6 ⟨1, 2345678, 7⟩ = 1234568 ∧
    rippleToBigInt 6 ⟨1, 2345678, 7⟩ ≠ specTruncate 6 ⟨1, 2345678, 7⟩ ∧
    rippleToBigInt 6 ⟨1, 2345678, 7⟩ ≠ specHalfUp 6 ⟨1, 2345678, 7⟩ := by
  refine ⟨by decide, by decide, by decide, by decide, by decide⟩

/-- Claim C9 (amended): The Satoshi/ERC20 codec uses exact integer
arithmetic with one rounding mode per coin: on a literal with more than
`decimals` fractional digits `toBigInt` truncates when `rounded` is
false and rounds half-up when `rounded` is true, and every literal with
at most `decimals` fractional digits round-trips through
`fromBigInt ∘ toBigInt` to itself padded with trailing zeros to exactly
`decimals` digits.  The part_000 Ripple codec satisfies the same
round-trip identity, but applies no rounding mode to longer literals
(see the counterexample). -/
theorem codec_rounding_amended (r : Bool) (d : Nat) (s t : DecimalStr)
    (hs : s.WF) (hk : s.fracLen ≤ d) (hko : d < t.fracLen) :
    satoshiFromBigInt d (satoshiToBigInt r d s) = padFrac d s ∧
    rippleFromBigInt d (rippleToBigInt d s) = padFrac d s ∧
    satoshiToBigInt false d t = specTruncate d t ∧
    satoshiToBigInt true d t = specHalfUp d t :=
  ⟨satoshi_roundTrip r d s hk hs, ripple_roundTrip d s hk hs,
   satoshiToBigInt_truncate d t hko, satoshiToBigInt_halfUp d t hko⟩

/-- Witness for `codec_rounding_amended`: `0.5` at 8 decimals
round-trips to `0.50000000`, and `1.234567891` (9 digits) truncates to
`123456789` and half-up rounds to `123456789` at 8 decimals. -/
theorem codec_rounding_amended_witness :
    satoshiFromBigInt 8 (satoshiToBigInt true 8 ⟨0, 5, 1⟩) = padFrac 8 ⟨0, 5, 1⟩ ∧
    rippleFromBigInt 8 (rippleToBigInt 8 ⟨0, 5, 1⟩) = padFrac 8 ⟨0, 5, 1⟩ ∧
    satoshiToBigInt false 8 ⟨1, 234567891, 9⟩ = specTruncate 8 ⟨1, 234567891, 9⟩ ∧
    satoshiToBigInt true 8 ⟨1, 234567891, 9⟩ = specHalfUp 8 ⟨1, 234567891, 9⟩ :=
  codec_rounding_amended true 8 ⟨0, 5, 1⟩ ⟨1, 234567891, 9⟩
    (by decide) (by decide) (by decide)

/-- Claim C1 (counterexample): On the account-based (Buterin) adapter the
spec's scenario 5 (backend balance `1.0`, one active pending of `0.9`,
request `0.2` — which exceeds `backendBalance − pendingSum`) does not
fail with the `'Insufficient backend balance'` state-conflict error:
`Buterin.setAccountPending` contains no backend-balance admission check
at all, and the call fails with the `ReferenceError` on the undefined
`amount_in_wei` instead (state unchanged). -/
theorem buterin_no_admission_check_counterexample :
    ((onePendingState 900000000000000000 1000000000000000000).backendBalance
        - dbGetPendingSum (onePendingState 900000000000000000 1000000000000000000)
        < 200000000000000000) ∧
    buterinSetAccountPending ⟨0, 0, fun _ => true⟩ none
        (onePendingState 900000000000000000 1000000000000000000) 2 ("D") ⟨0, 2, 1⟩
      = (.error (.referenceError ("amount_in_wei")),
         onePendingState 900000000000000000 1000000000000000000) ∧
    Err.referenceError ("amount_in_wei") ≠ Err.insufficientBackend :=
  ⟨by decide, rfl, by decide⟩

/-- Claim C1 (amended): The backend-balance admission precondition
`amount ≤ BackendBalanceSnapshot − Σ active pending` is enforced by the
Satoshi and ERC20 adapters: `setAccountPending` fails with
`'Insufficient backend balance'` and leaves the state unchanged
whenever the requested amount exceeds `backendBalance − pendingSum`,
and a call can only succeed when the precondition holds.  The Buterin
adapter performs no such check and never schedules a payout at all
(every call fails before the insert, on the undefined
`amount_in_wei`). -/
theorem admission_precondition_amended (cfgS : SatoshiCfg) (cfgE : ERC20Cfg)
    (stS stE : CoinState) (u : UserId) (a : Addr) (amt : DecimalStr)
    (hS : stS.backendBalance - dbGetPendingSum stS
        < (satoshiToBigInt cfgS.rounded cfgS.decimals amt : Int))
    (hE : stE.backendBalance - dbGetPendingSum stE
        < (satoshiToBigInt cfgE.rounded cfgE.decimals amt : Int))
    (hEaddr : cfgE.validAddr a = true) :
    satoshiSetAccountPending cfgS none stS u a amt = (.error .insufficientBackend, stS) ∧
    erc20SetAccountPending cfgE none stE u a amt = (.error .insufficientBackend, stE) ∧
    (∀ st2 r s2, satoshiSetAccountPending cfgS none st2 u a amt = (.ok r, s2) →
      (satoshiToBigInt cfgS.rounded cfgS.decimals amt : Int)
        ≤ st2.backendBalance - dbGetPendingSum st2) ∧
    (∀ st2 r s2, erc20SetAccountPending cfgE none st2 u a amt = (.ok r, s2) →
      (satoshiToBigInt cfgE.rounded cfgE.decimals amt : Int)
        ≤ st2.backendBalance - dbGetPendingSum st2) ∧
    (∀ (cfgB : ButerinCfg) (latch : Option Err) (stB : CoinState) r s2,
      buterinSetAccountPending cfgB latch stB u a amt ≠ (.ok r, s2)) := by
  refine ⟨?_, ?_, ?_, ?_, ?_⟩
  · simp only [satoshiSetAccountPending]
    rw [if_pos hS]
  · simp only [erc20SetAccountPending, hEaddr, Bool.not_true, Bool.false_eq_true,
      if_false]
    rw [if_pos hE]
  · intro st2 r s2 hok
    by_contra hcon
    push_neg at hcon
    simp [satoshiSetAccountPending, hcon] at hok
  · intro st2 r s2 hok
    by_contra hcon
    push_neg at hcon
    by_cases hv : cfgE.validAddr a
    · simp [erc20SetAccountPending, hv, hcon] at hok
    · simp [erc20SetAccountPending, hv] at hok
  · intro cfgB latch stB r s2 h
    cases latch with
    | some e => simp [buterinSetAccountPending] at h
    | none =>
      by_cases hv : cfgB.validAddr a
      · rcases hb : buterinToBigInt amt with _ | v
        · simp [buterinSetAccountPending, hv, hb] at h
        · by_cases hp : (dbGetAccountPending stB u).isSome
          · simp [buterinSetAccountPending, hv, hb, hp] at h
          · by_cases hm : (dbGetUserId stB a).isSome
            · simp [buterinSetAccountPending, hv, hb, hp, hm] at h
            · simp [buterinSetAccountPending, hv, hb, hp, hm] at h
      · simp [buterinSetAccountPending, hv] at h

/-- Witness for `admission_precondition_amended`: backend balance 100,
pending sum 90, request of 20 units (`0.00000020` at 8 decimals). -/
theorem admission_precondition_amended_witness :
    satoshiSetAccountPending ⟨8, true, 1, 1, 3⟩ none (onePendingState 90 100) 2 ("D")
        ⟨0, 20, 8⟩
      = (.error .insufficientBackend, onePendingState 90 100) ∧
    erc20SetAccountPending ⟨8, true, 1, 1, "R", fun _ => true⟩ none
        (onePendingState 90 100) 2 ("D") ⟨0, 20, 8⟩
      = (.error .insufficientBackend, onePendingState 90 100) ∧
    (∀ st2 r s2,
      satoshiSetAccountPending ⟨8, true, 1, 1, 3⟩ none st2 2 ("D") ⟨0, 20, 8⟩
        = (.ok r, s2) →
      (satoshiToBigInt true 8 ⟨0, 20, 8⟩ : Int)
        ≤ st2.backendBalance - dbGetPendingSum st2) ∧
    (∀ st2 r s2,
      erc20SetAccountPending ⟨8, true, 1, 1, "R", fun _ => true⟩ none st2 2 ("D")
          ⟨0, 20, 8⟩ = (.ok r, s2) →
      (satoshiToBigInt true 8 ⟨0, 20, 8⟩ : Int)
        ≤ st2.backendBalance - dbGetPendingSum st2) ∧
    (∀ (cfgB : ButerinCfg) (latch : Option Err) (stB : CoinState) r s2,
      buterinSetAccountPending cfgB latch stB 2 ("D") ⟨0, 20, 8⟩ ≠ (.ok r, s2)) :=
  admission_precondition_amended ⟨8, true, 1, 1, 3⟩ ⟨8, true, 1, 1, "R", fun _ => true⟩
    (onePendingState 90 100) (onePendingState 90 100) 2 ("D") ⟨0, 20, 8⟩
    (by decide) (by decide) rfl

/-- Claim C2 (code bug): At the failing input — one pending payout
(user 1, amount 100, address `"P"`) whose destination the UTXO daemon
reports invalid — `Satoshi.processPending` does not perform the
documented reject handling.  Its own comments announce deleting the
request record from the processing queue, pushing a reject for manual
handling, and skipping to the next pending withdrawal; but the code passes
`pending.userId` of the pending *array* (undefined) to `deletePending`
and pushes into the undefined `rejected` sink, so the pass aborts with
a latched `ReferenceError`, the pending row survives, and no event is
emitted (the function does not even take a rejected sink).  The
account-based engines behave as the claim says at the analogous input:
the row is deleted, exactly one `RejectedWithdrawalEvent` is pushed, no
withdrawal-transaction row is inserted, and the adapter is not
latched. -/
theorem satoshi_reject_path_divergence :
    satoshiProcessPending none (onePendingState 100 0) (fun _ => .invalid)
      = (some (.referenceError ("rejected")), onePendingState 100 0, []) ∧
    buterinProcessPending none (onePendingState 100 1000)
        ⟨0, 0, 1000, fun _ => 5, fun _ => .rejected⟩
      = (none, { emptyCoinState with backendBalance := 1000 }, [], [⟨1, 95, "P"⟩]) ∧
    erc20ProcessPending ⟨8, true, 1, 2, "R", fun _ => true⟩ none (onePendingState 100 0)
        (fun _ => .rejected)
      = (none, emptyCoinState, [], [⟨1, 98, "P"⟩]) :=
  ⟨rfl, rfl, rfl⟩

/-- Helper: deleting a pending row preserves distinct user keys. -/
theorem pendingKeys_delete (st : CoinState) (u : UserId)
    (h : PendingKeysDistinct st) : PendingKeysDistinct (dbDeletePending st u) := by
  unfold PendingKeysDistinct dbDeletePending
  exact List.Nodup.sublist
    (List.Sublist.map (fun r : PendingRow => r.userId)
      (List.filter_sublist st.pending)) h

/-- Helper: inserting a pending row for a user with no existing row
preserves distinct user keys. -/
theorem pendingKeys_insert (st : CoinState) (u : UserId) (a : Addr) (amt : Int)
    (h : PendingKeysDistinct st) (hnone : (dbGetAccountPending st u).isSome = false) :
    PendingKeysDistinct (dbInsertPending st u a amt) := by
  unfold PendingKeysDistinct dbInsertPending
  simp only [List.map_append, List.map_cons, List.map_nil]
  rw [List.nodup_append]
  refine ⟨h, List.nodup_singleton u, ?_⟩
  intro x hx
  simp only [List.mem_singleton]
  rintro rfl
  rcases List.mem_map.mp hx with ⟨r, hr, hru⟩
  unfold dbGetAccountPending at hnone
  have hnone2 : st.pending.find? (fun p => p.userId == x) = none := by
    rcases hfind : st.pending.find? (fun p => p.userId == x) with _ | v
    · exact hfind
    · rw [hfind] at hnone
      simp at hnone
  rw [List.find?_eq_none] at hnone2
  have := hnone2 r hr
  simp only [beq_iff_eq] at this
  exact this hru

/-- Helper: the success-path commit of a withdrawal only removes the
user's pending row from the pending table. -/
theorem commitWithdrawal_pending (st : CoinState) (u : UserId) (amt : Int)
    (txid : Nat) (a : Addr) :
    (commitWithdrawal st u amt txid a).pending
      = st.pending.filter (fun r => r.userId != u) := by
  unfold commitWithdrawal dbDeletePending dbSetAccountStats
  split <;> rfl

/-- Helper: the withdrawal commit preserves distinct pending keys. -/
theorem commitWithdrawal_nodup (st : CoinState) (u : UserId) (amt : Int)
    (txid : Nat) (a : Addr) (h : PendingKeysDistinct st) :
    PendingKeysDistinct (commitWithdrawal st u amt txid a) := by
  unfold PendingKeysDistinct
  rw [commitWithdrawal_pending]
  exact List.Nodup.sublist
    (List.Sublist.map (fun r : PendingRow => r.userId)
      (List.filter_sublist st.pending)) h

/-- Helper: `Satoshi.setAccountPending` preserves distinct pending keys
(every error path leaves the table unchanged; the insert is guarded by
the in-transaction duplicate check). -/
theorem satoshiSetAccountPending_nodup (cfg : SatoshiCfg) (latch : Option Err)
    (st : CoinState) (u : UserId) (a : Addr) (amt : DecimalStr)
    (h : PendingKeysDistinct st) :
    PendingKeysDistinct (satoshiSetAccountPending cfg latch st u a amt).2 := by
  unfold satoshiSetAccountPending
  cases latch with
  | some e => exact h
  | none =>
    dsimp only
    split
    · exact h
    · split
      · exact h
      · split
        · exact h
        · split
          · exact h
          · rename_i hdup
            exact pendingKeys_insert st u a _ h (by simpa using hdup)

/-- Helper: `ERC20.setAccountPending` preserves distinct pending keys. -/
theorem erc20SetAccountPending_nodup (cfg : ERC20Cfg) (latch : Option Err)
    (st : CoinState) (u : UserId) (a : Addr) (amt : DecimalStr)
    (h : PendingKeysDistinct st) :
    PendingKeysDistinct (erc20SetAccountPending cfg latch st u a amt).2 := by
  unfold erc20SetAccountPending
  cases latch with
  | some e => exact h
  | none =>
    dsimp only
    split
    · exact h
    · split
      · exact h
      · split
        · exact h
        · split
          · exact h
          · split
            · exact h
            · rename_i hdup
              exact pendingKeys_insert st u a _ h (by simpa using hdup)

/-- Helper: `Buterin.setAccountPending` never changes the state (no
call path reaches its `insertPending`). -/
theorem buterinSetAccountPending_state (cfg : ButerinCfg) (latch : Option Err)
    (st : CoinState) (u : UserId) (a : Addr) (amt : DecimalStr) :
    (buterinSetAccountPending cfg latch st u a amt).2 = st := by
  unfold buterinSetAccountPending
  cases latch with
  | some e => rfl
  | none =>
    dsimp only
    split
    · rfl
    · cases hb : buterinToBigInt amt with
      | none => rfl
      | some v =>
        dsimp only
        split
        · rfl
        · split
          · rfl
          · rfl

/-- Helper: `Ripple.setAccountPending` preserves distinct pending
keys. -/
theorem rippleSetAccountPending_nodup (cfg : RippleCfg) (latch : Option Err)
    (st : CoinState) (u : UserId) (a : Addr) (amt : DecimalStr) (tagOk : Bool)
    (h : PendingKeysDistinct st) :
    PendingKeysDistinct (rippleSetAccountPending cfg latch st u a amt tagOk).2 := by
  unfold rippleSetAccountPending
  cases latch with
  | some e => exact h
  | none =>
    cases cfg.rootAddress with
    | none => exact h
    | some root =>
      dsimp only
      split
      · exact h
      · split
        · exact h
        · rename_i hdup
          split
          · exact h
          · split
            · exact h
            · exact pendingKeys_insert st u a _ h (by simpa using hdup)

/-- Helper: `Satoshi.processPending` preserves distinct pending keys. -/
theorem satoshiProcessPending_nodup (latch : Option Err) (st : CoinState)
    (oc : UserId → SatOutcome) (h : PendingKeysDistinct st) :
    PendingKeysDistinct (satoshiProcessPending latch st oc).2.1 := by
  unfold satoshiProcessPending
  cases latch with
  | some e => exact h
  | none =>
    cases hp : st.pending with
    | nil => exact h
    | cons r rest =>
      dsimp only
      cases oc r.userId with
      | rpcErr c => exact h
      | invalid => exact h
      | sent txid => exact commitWithdrawal_nodup st r.userId r.amount txid r.address h

/-- Helper: the Buterin pending loop preserves distinct pending keys. -/
theorem buterinLoop_nodup (ch : BChain) (rows : List PendingRow) (st : CoinState)
    (p : List PWEvent) (rj : List RWEvent) (h : PendingKeysDistinct st) :
    PendingKeysDistinct (buterinProcessPendingLoop ch rows st p rj).2.1 := by
  induction rows generalizing st p rj with
  | nil => exact h
  | cons r rest ih =>
    unfold buterinProcessPendingLoop
    split
    · exact h
    · dsimp only
      split
      · exact h
      · cases ch.outcome r.userId with
        | rejected => exact ih _ _ _ (pendingKeys_delete st r.userId h)
        | confirmed txid =>
          exact ih _ _ _ (commitWithdrawal_nodup st r.userId _ txid r.address h)

theorem buterinProcessPending_nodup (latch : Option Err) (st : CoinState)
    (ch : BChain) (h : PendingKeysDistinct st) :
    PendingKeysDistinct (buterinProcessPending latch st ch).2.1 := by
  unfold buterinProcessPending
  cases latch with
  | some e => exact h
  | none => exact buterinLoop_nodup ch st.pending st [] [] h

/-- Helper: the ERC20 pending loop preserves distinct pending keys. -/
theorem erc20Loop_nodup (cfg : ERC20Cfg) (oc : UserId → EthOutcome)
    (rows : List PendingRow) (st : CoinState) (p : List PWEvent) (rj : List RWEvent)
    (h : PendingKeysDistinct st) :
    PendingKeysDistinct (erc20ProcessPendingLoop cfg oc rows st p rj).2.1 := by
  induction rows generalizing st p rj with
  | nil => exact h
  | cons r rest ih =>
    unfold erc20ProcessPendingLoop
    cases oc r.userId with
    | rejected => exact ih _ _ _ (pendingKeys_delete st r.userId h)
    | confirmed txid =>
      exact ih _ _ _ (commitWithdrawal_nodup st r.userId r.amount txid r.address h)

theorem erc20ProcessPending_nodup (cfg : ERC20Cfg) (latch : Option Err)
    (st : CoinState) (oc : UserId → EthOutcome) (h : PendingKeysDistinct st) :
    PendingKeysDistinct (erc20ProcessPending cfg latch st oc).2.1 := by
  unfold erc20ProcessPending
  cases latch with
  | some e => exact h
  | none => exact erc20Loop_nodup cfg oc st.pending st [] [] h

/-- Helper: one ERC20 poll iteration does not touch the pending table. -/
theorem erc20PollStep_pending (cfg : ERC20Cfg) (snap : List (Int × UserId))
    (acc : CoinState × List DEvent) (r : ERecord) :
    (erc20PollStep cfg snap acc r).1.pending = acc.1.pending := by
  rcases acc with ⟨st, evs⟩
  unfold erc20PollStep
  dsimp only
  split
  · rfl
  · split
    · rfl
    · split
      · rfl
      · unfold dbSetAccountStats dbDeleteAwaitingDeposit
        split <;> rfl

/-- Helper: the ERC20 poll loop does not touch the pending table. -/
theorem erc20PollFold_pending (cfg : ERC20Cfg) (snap : List (Int × UserId))
    (records : List ERecord) (acc : CoinState × List DEvent) :
    (records.foldl (erc20PollStep cfg snap) acc).1.pending = acc.1.pending := by
  induction records generalizing acc with
  | nil => rfl
  | cons r rest ih =>
    rw [List.foldl_cons, ih, erc20PollStep_pending]

/-- Helper: `ERC20.pollBackend` does not touch the pending table. -/
theorem erc20PollBackend_pending (cfg : ERC20Cfg) (latch : Option Err)
    (st : CoinState) (records : List ERecord) (bal : Int) :
    (erc20PollBackend cfg latch st records bal).2.1.pending = st.pending := by
  unfold erc20PollBackend
  cases latch with
  | some e => rfl
  | none =>
    dsimp only
    split
    · rfl
    · split
      · rfl
      · exact erc20PollFold_pending cfg _ records (st, [])

/-- Helper: applying one accumulated Satoshi deposit change does not
touch the pending table. -/
theorem satoshiApplyChange_pending (acc : CoinState × List DEvent) (c : SChange) :
    (satoshiApplyChange acc c).1.pending = acc.1.pending := by
  rcases acc with ⟨st, evs⟩
  unfold satoshiApplyChange dbSetAccountStats dbCheckBlockProcessed
  dsimp only
  split <;> split <;> rfl

theorem satoshiApplyFold_pending (changes : List SChange)
    (acc : CoinState × List DEvent) :
    (changes.foldl satoshiApplyChange acc).1.pending = acc.1.pending := by
  induction changes generalizing acc with
  | nil => rfl
  | cons c rest ih =>
    rw [List.foldl_cons, ih, satoshiApplyChange_pending]

/-- Helper: `Satoshi.pollBackend` does not touch the pending table. -/
theorem satoshiPollBackend_pending (cfg : SatoshiCfg) (latch : Option Err)
    (st : CoinState) (pages : List (List SRecord)) (ho : Nat → Nat)
    (bal : DecimalStr) :
    (satoshiPollBackend cfg latch st pages ho bal).2.1.pending = st.pending := by
  unfold satoshiPollBackend
  cases latch with
  | some e => rfl
  | none =>
    dsimp only
    split
    · rfl
    · exact satoshiApplyFold_pending _ (st, [])

/-- Helper: the Buterin deposit loop does not touch the pending
table. -/
theorem buterinPollLoop_pending (cfg : ButerinCfg) (ch : BDepChain)
    (rows : List (UserId × Addr)) (st : CoinState) (evs : List DEvent) :
    (buterinPollBackendLoop cfg ch rows st evs).2.1.pending = st.pending := by
  induction rows generalizing st evs with
  | nil => rfl
  | cons r rest ih =>
    rcases r with ⟨uid, a⟩
    unfold buterinPollBackendLoop
    dsimp only
    split
    · rfl
    · split
      · exact ih st evs
      · split
        · exact ih st evs
        · rw [ih]
          unfold dbSetAccountStats
          split <;> rfl

/-- Helper: `Buterin.pollBackend` does not touch the pending table. -/
theorem buterinPollBackend_pending (cfg : ButerinCfg) (latch : Option Err)
    (st : CoinState) (ch : BDepChain) :
    (buterinPollBackend cfg latch st ch).2.1.pending = st.pending := by
  unfold buterinPollBackend
  cases latch with
  | some e => rfl
  | none =>
    dsimp only
    split
    · rfl
    · exact buterinPollLoop_pending cfg ch st.addresses st []

/-- Helper: with an existing pending row for the user, every engine's
`setAccountPending` leaves the state unchanged and never succeeds. -/
theorem satoshiSetAccountPending_duplicate (cfg : SatoshiCfg) (latch : Option Err)
    (st : CoinState) (u : UserId) (a : Addr) (amt : DecimalStr)
    (hp : (dbGetAccountPending st u).isSome = true) :
    (satoshiSetAccountPending cfg latch st u a amt).2 = st ∧
    ∀ r s2, satoshiSetAccountPending cfg latch st u a amt ≠ (.ok r, s2) := by
  unfold satoshiSetAccountPending
  cases latch with
  | some e =>
    refine ⟨rfl, ?_⟩
    intro r s2 hq
    simp at hq
  | none =>
    dsimp only
    split
    · refine ⟨rfl, ?_⟩
      intro r s2 hq
      simp at hq
    · split
      · refine ⟨rfl, ?_⟩
        intro r s2 hq
        simp at hq
      · split
        · refine ⟨rfl, ?_⟩
          intro r s2 hq
          simp at hq
        · refine ⟨rfl, ?_⟩
          intro r s2 hq
          simp at hq

/-- Helper: with an existing pending row and no earlier input failure,
`Satoshi.setAccountPending` fails with exactly the
`'Already have sheduled payout'` error and changes nothing. -/
theorem satoshiSetAccountPending_duplicate_err (cfg : SatoshiCfg) (st : CoinState)
    (u : UserId) (a : Addr) (amt : DecimalStr)
    (hp : (dbGetAccountPending st u).isSome = true)
    (h1 : ¬(st.backendBalance - dbGetPendingSum st
        < (satoshiToBigInt cfg.rounded cfg.decimals amt : Int)))
    (h2 : (dbGetUserId st a).isSome = false)
    (h3 : ¬((satoshiToBigInt cfg.rounded cfg.decimals amt : Int)
        < cfg.minimumAmount + cfg.staticFee)) :
    satoshiSetAccountPending cfg none st u a amt = (.error .alreadyScheduled, st) := by
  unfold satoshiSetAccountPending
  dsimp only
  rw [if_neg h1, if_neg (by simp [h2]), if_neg h3]
  first
  | rfl
  | rw [if_pos hp]

/-- Claim C4: Every modelled operation of every coin adapter preserves
the invariant that at most one pending payout row exists per user (the
pending table's primary key is `userId`): the four `setAccountPending`
variants and the three `processPending` variants preserve pairwise
distinct pending user keys, the three `pollBackend` variants never
touch the pending table, and when a pending row for the user already
exists `setAccountPending` leaves the state unchanged and cannot
succeed — failing with exactly the `'Already have sheduled payout'`
error when the preceding input validations pass. -/
theorem pending_single_row_invariant
    (cfgS : SatoshiCfg) (cfgE : ERC20Cfg) (cfgB : ButerinCfg) (cfgR : RippleCfg)
    (latch : Option Err) (st : CoinState) (u : UserId) (a : Addr)
    (amt : DecimalStr) (tagOk : Bool) (h : PendingKeysDistinct st) :
    PendingKeysDistinct (satoshiSetAccountPending cfgS latch st u a amt).2 ∧
    PendingKeysDistinct (erc20SetAccountPending cfgE latch st u a amt).2 ∧
    PendingKeysDistinct (buterinSetAccountPending cfgB latch st u a amt).2 ∧
    PendingKeysDistinct (rippleSetAccountPending cfgR latch st u a amt tagOk).2 ∧
    (∀ oc, PendingKeysDistinct (satoshiProcessPending latch st oc).2.1) ∧
    (∀ ch, PendingKeysDistinct (buterinProcessPending latch st ch).2.1) ∧
    (∀ oc, PendingKeysDistinct (erc20ProcessPending cfgE latch st oc).2.1) ∧
    (∀ pages ho bal,
      (satoshiPollBackend cfgS latch st pages ho bal).2.1.pending = st.pending) ∧
    (∀ recs bal, (erc20PollBackend cfgE latch st recs bal).2.1.pending = st.pending) ∧
    (∀ ch, (buterinPollBackend cfgB latch st ch).2.1.pending = st.pending) ∧
    ((dbGetAccountPending st u).isSome = true →
      (satoshiSetAccountPending cfgS latch st u a amt).2 = st ∧
      ∀ r s2, satoshiSetAccountPending cfgS latch st u a amt ≠ (.ok r, s2)) ∧
    ((dbGetAccountPending st u).isSome = true →
      ¬(st.backendBalance - dbGetPendingSum st
          < (satoshiToBigInt cfgS.rounded cfgS.decimals amt : Int)) →
      (dbGetUserId st a).isSome = false →
      ¬((satoshiToBigInt cfgS.rounded cfgS.decimals amt : Int)
          < cfgS.minimumAmount + cfgS.staticFee) →
      satoshiSetAccountPending cfgS none st u a amt
        = (.error .alreadyScheduled, st)) := by
  refine ⟨satoshiSetAccountPending_nodup cfgS latch st u a amt h,
    erc20SetAccountPending_nodup cfgE latch st u a amt h,
    ?_, rippleSetAccountPending_nodup cfgR latch st u a amt tagOk h,
    fun oc => satoshiProcessPending_nodup latch st oc h,
    fun ch => buterinProcessPending_nodup latch st ch h,
    fun oc => erc20ProcessPending_nodup cfgE latch st oc h,
    fun pages ho bal => satoshiPollBackend_pending cfgS latch st pages ho bal,
    fun recs bal => erc20PollBackend_pending cfgE latch st recs bal,
    fun ch => buterinPollBackend_pending cfgB latch st ch,
    fun hp => satoshiSetAccountPending_duplicate cfgS latch st u a amt hp,
    fun hp h1 h2 h3 =>
      satoshiSetAccountPending_duplicate_err cfgS st u a amt hp h1 h2 h3⟩
  rw [show (buterinSetAccountPending cfgB latch st u a amt).2 = st from
    buterinSetAccountPending_state cfgB latch st u a amt]
  exact h

/-- Witness for `pending_single_row_invariant`: the state holding one
pending payout for user 1, called for user 1 (a duplicate). -/
theorem pending_single_row_invariant_witness :
    PendingKeysDistinct (satoshiSetAccountPending ⟨8, true, 1, 1, 3⟩ none
      (onePendingState 100 1000) 1 ("D") ⟨0, 20, 8⟩).2 ∧
    PendingKeysDistinct (erc20SetAccountPending ⟨8, true, 1, 1, "R", fun _ => true⟩
      none (onePendingState 100 1000) 1 ("D") ⟨0, 20, 8⟩).2 ∧
    PendingKeysDistinct (buterinSetAccountPending ⟨0, 0, fun _ => true⟩ none
      (onePendingState 100 1000) 1 ("D") ⟨0, 20, 8⟩).2 ∧
    PendingKeysDistinct (rippleSetAccountPending ⟨6, 1, some ("R")⟩ none
      (onePendingState 100 1000) 1 ("D") ⟨0, 20, 8⟩ true).2 ∧
    (∀ oc, PendingKeysDistinct
      (satoshiProcessPending none (onePendingState 100 1000) oc).2.1) ∧
    (∀ ch, PendingKeysDistinct
      (buterinProcessPending none (onePendingState 100 1000) ch).2.1) ∧
    (∀ oc, PendingKeysDistinct
      (erc20ProcessPending ⟨8, true, 1, 1, "R", fun _ => true⟩ none
        (onePendingState 100 1000) oc).2.1) ∧
    (∀ pages ho bal,
      (satoshiPollBackend ⟨8, true, 1, 1, 3⟩ none (onePendingState 100 1000)
        pages ho bal).2.1.pending = (onePendingState 100 1000).pending) ∧
    (∀ recs bal,
      (erc20PollBackend ⟨8, true, 1, 1, "R", fun _ => true⟩ none
        (onePendingState 100 1000) recs bal).2.1.pending
        = (onePendingState 100 1000).pending) ∧
    (∀ ch,
      (buterinPollBackend ⟨0, 0, fun _ => true⟩ none (onePendingState 100 1000)
        ch).2.1.pending = (onePendingState 100 1000).pending) ∧
    ((dbGetAccountPending (onePendingState 100 1000) 1).isSome = true →
      (satoshiSetAccountPending ⟨8, true, 1, 1, 3⟩ none (onePendingState 100 1000)
        1 ("D") ⟨0, 20, 8⟩).2 = onePendingState 100 1000 ∧
      ∀ r s2, satoshiSetAccountPending ⟨8, true, 1, 1, 3⟩ none
        (onePendingState 100 1000) 1 ("D") ⟨0, 20, 8⟩ ≠ (.ok r, s2)) ∧
    ((dbGetAccountPending (onePendingState 100 1000) 1).isSome = true →
      ¬((onePendingState 100 1000).backendBalance
          - dbGetPendingSum (onePendingState 100 1000)
          < (satoshiToBigInt true 8 ⟨0, 20, 8⟩ : Int)) →
      (dbGetUserId (onePendingState 100 1000) ("D")).isSome = false →
      ¬((satoshiToBigInt true 8 ⟨0, 20, 8⟩ : Int) < 1 + 1) →
      satoshiSetAccountPending ⟨8, true, 1, 1, 3⟩ none (onePendingState 100 1000)
        1 ("D") ⟨0, 20, 8⟩ = (.error .alreadyScheduled, onePendingState 100 1000)) :=
  pending_single_row_invariant ⟨8, true, 1, 1, 3⟩ ⟨8, true, 1, 1, "R", fun _ => true⟩
    ⟨0, 0, fun _ => true⟩ ⟨6, 1, some ("R")⟩ none (onePendingState 100 1000) 1 ("D")
    ⟨0, 20, 8⟩ true (by unfold PendingKeysDistinct onePendingState emptyCoinState; decide)

/-- Helper: whenever the perturbation loop returns a value, that value
is not reserved by any active handle (the loop's exit condition). -/
theorem perturbLoop_unreserved (reserved : List Int) (adj : Nat → Int)
    (fuel : Nat) (amount : Int) (i : Nat) (a : Int)
    (h : perturbLoop reserved adj fuel amount i = some a) :
    (reserved.isEmpty || !reserved.contains a) = true := by
  induction fuel generalizing amount i with
  | zero => simp [perturbLoop] at h
  | succ n ih =>
    unfold perturbLoop at h
    split at h
    · rename_i hc
      cases h
      exact hc
    · exact ih _ _ h

/-- Helper: on the reserved set `{42}` with an all-zero adjustment
stream, the perturbation loop never exits, whatever the iteration
bound. -/
theorem perturbLoop_stuck (fuel i : Nat) :
    perturbLoop [42] (fun _ => 0) fuel 42 i = none := by
  induction fuel generalizing i with
  | zero => rfl
  | succ n ih =>
    unfold perturbLoop
    rw [if_neg (by decide)]
    simpa using ih (i + 1)

/-- Claim C5 (counterexample): With active handles reserving `1.000000`
and `1.000100` (six decimals) and a request of `1.000000`, the
adjustment draws `−100` and then `−128` — both inside `[−128, +127]` —
make `setAwaitingDeposit` return `1.000228`, which differs from the
requested amount by `228 > 128` minimal units: after repeated
collisions the total drift exceeds the claimed bound. -/
theorem perturb_drift_counterexample :
    erc20SetAwaitingDeposit ⟨6, true, 1000, 0, "R", fun _ => true⟩ none
        twoAwaitingState 2 ⟨1, 0, 6⟩
        (fun i => if i == 0 then (-100 : Int) else -128) 3
      = some (.ok (.handle ("R") ⟨1, 228, 6⟩),
          { emptyCoinState with
              awaiting := [(10, 1000000), (11, 1000100), (2, 1000228)] }) ∧
    ((1000228 : Int) - 1000000 > 128) ∧
    ((-128 : Int) ≤ -100 ∧ (-100 : Int) ≤ 127) ∧
    ((-128 : Int) ≤ -128 ∧ (-128 : Int) ≤ 127) :=
  ⟨rfl, by decide, by decide, by decide⟩

/-- Claim C5 (amended): `ERC20.setAwaitingDeposit` returns the requested
amount verbatim when no active handle reserves it (and records it for
the user); every amount the perturbation loop returns is unreserved
among the active handles; and a single collision resolved by one
adjustment draw changes the amount by at most `128` minimal units
(`−adj ∈ [−127, +128]`).  After several collisions, however, the total
difference may exceed `128` (see the counterexample). -/
theorem awaiting_amount_perturbation_amended (cfg : ERC20Cfg) (st : CoinState)
    (u : UserId) (s : DecimalStr) (adj : Nat → Int) (fuel : Nat)
    (hmin : ¬((satoshiToBigInt cfg.rounded cfg.decimals s : Int) + 128
        < cfg.minimumAmount))
    (hfree : ((dbGetAwaitingDeposits st).map (·.1)).contains
        (satoshiToBigInt cfg.rounded cfg.decimals s : Int) = false)
    (hnoc : dbAwaitingInsertConflict st u
        (satoshiToBigInt cfg.rounded cfg.decimals s : Int) = false) :
    erc20SetAwaitingDeposit cfg none st u s adj (fuel + 1)
      = some (.ok (.handle cfg.rootAddress
          (satoshiFromBigInt cfg.decimals
            ((satoshiToBigInt cfg.rounded cfg.decimals s : Int)).toNat)),
        dbInsertAwaitingDeposit st u
          (satoshiToBigInt cfg.rounded cfg.decimals s : Int)) ∧
    (∀ reserved amount a f2,
      perturbLoop reserved adj f2 amount 0 = some a →
      (reserved.isEmpty || !reserved.contains a) = true) ∧
    (∀ (reserved : List Int) (amount : Int) (f2 : Nat),
      reserved.contains amount = true →
      reserved.contains (amount - adj 0) = false →
      perturbLoop reserved adj (f2 + 2) amount 0 = some (amount - adj 0) ∧
      (-128 ≤ adj 0 → adj 0 ≤ 127 →
        amount - adj 0 - amount ≤ 128 ∧ amount - (amount - adj 0) ≤ 127)) := by
  refine ⟨?_, fun reserved amount a f2 h =>
    perturbLoop_unreserved reserved adj f2 amount 0 a h, ?_⟩
  · have hloop : perturbLoop ((dbGetAwaitingDeposits st).map (·.1)) adj (fuel + 1)
        (satoshiToBigInt cfg.rounded cfg.decimals s : Int) 0
        = some (satoshiToBigInt cfg.rounded cfg.decimals s : Int) := by
      unfold perturbLoop
      rw [if_pos (by rw [hfree]; simp)]
    simp only [erc20SetAwaitingDeposit]
    rw [if_neg hmin, hloop]
    dsimp only
    rw [if_neg (by rw [hnoc]; decide)]
  · intro reserved amount f2 hcoll hfree2
    have hne : reserved.isEmpty = false := by
      cases reserved with
      | nil => simp at hcoll
      | cons x xs => rfl
    constructor
    · unfold perturbLoop
      rw [if_neg (by rw [hne, hcoll]; decide)]
      unfold perturbLoop
      rw [if_pos (by rw [hfree2]; simp)]
    · intro hlo hhi
      omega

/-- Witness for `awaiting_amount_perturbation_amended`: the empty
handle set and a request of `2.000000`. -/
theorem awaiting_amount_perturbation_amended_witness :
    erc20SetAwaitingDeposit ⟨6, true, 1000, 0, "R", fun _ => true⟩ none
        emptyCoinState 2 ⟨2, 0, 6⟩ (fun _ => 0) 1
      = some (.ok (.handle ("R")
          (satoshiFromBigInt 6 ((satoshiToBigInt true 6 ⟨2, 0, 6⟩ : Int)).toNat)),
        dbInsertAwaitingDeposit emptyCoinState 2
          (satoshiToBigInt true 6 ⟨2, 0, 6⟩ : Int)) ∧
    (∀ reserved amount a f2,
      perturbLoop reserved (fun _ => 0) f2 amount 0 = some a →
      (reserved.isEmpty || !reserved.contains a) = true) ∧
    (∀ (reserved : List Int) (amount : Int) (f2 : Nat),
      reserved.contains amount = true →
      reserved.contains (amount - (fun _ => (0 : Int)) 0) = false →
      perturbLoop reserved (fun _ => 0) (f2 + 2) amount 0
        = some (amount - (fun _ => (0 : Int)) 0) ∧
      (-128 ≤ (fun _ => (0 : Int)) 0 → (fun _ => (0 : Int)) 0 ≤ 127 →
        amount - (fun _ => (0 : Int)) 0 - amount ≤ 128 ∧
        amount - (amount - (fun _ => (0 : Int)) 0) ≤ 127)) :=
  awaiting_amount_perturbation_amended ⟨6, true, 1000, 0, "R", fun _ => true⟩
    emptyCoinState 2 ⟨2, 0, 6⟩ (fun _ => 0) 0 (by decide) (by decide) (by decide)

/-- Claim C6 (counterexample): The amount-perturbation loop of
`ERC20.setAwaitingDeposit` is `while (true)` with no attempt bound and
no StateConflict failure: on the reserved set `{42}` with a requested
amount of `42` and an adjustment stream that keeps drawing `0`, it
never terminates. -/
theorem perturb_unbounded_counterexample :
    ¬ PerturbTerminates [42] (fun _ => 0) 42 := by
  rintro ⟨fuel, a, h⟩
  rw [perturbLoop_stuck fuel 0] at h
  exact Option.noConfusion h

/-- Claim C6 (amended): The loop has no attempt bound and raises no
bounded-attempts error; what holds is partial correctness: whenever it
terminates it returns an amount no active handle reserves. -/
theorem perturb_no_attempt_bound_amended (reserved : List Int) (adj : Nat → Int)
    (fuel : Nat) (amount a : Int)
    (h : perturbLoop reserved adj fuel amount 0 = some a) :
    (reserved.isEmpty || !reserved.contains a) = true :=
  perturbLoop_unreserved reserved adj fuel amount 0 a h

/-- Witness for `perturb_no_attempt_bound_amended`: no reservations,
one iteration. -/
theorem perturb_no_attempt_bound_amended_witness :
    (([] : List Int).isEmpty || !([] : List Int).contains (5 : Int)) = true :=
  perturb_no_attempt_bound_amended [] (fun _ => 0) 1 5 5 (by decide)

/-- Claim C7 (counterexample): With the fatal-error latch set, the
mutating calls `ERC20.setAwaitingDeposit` and `Satoshi.getAddress` do
not fail with the stored error — they `return false` (lines 427–428 and
376–377 of the respective sources). -/
theorem latch_returns_false_counterexample :
    erc20SetAwaitingDeposit ⟨6, true, 1000, 0, "R", fun _ => true⟩
        (some (.backendRpc 7)) emptyCoinState 1 ⟨1, 0, 6⟩ (fun _ => 0) 1
      = some (.returnedFalse, emptyCoinState) ∧
    (ApiRes.returnedFalse : ApiRes AwaitOk) ≠ .threw (.backendRpc 7) ∧
    satoshiGetAddress (some (.backendRpc 7)) emptyCoinState 1 ("A")
      = (.returnedFalse, emptyCoinState) ∧
    (ApiRes.returnedFalse : ApiRes Addr) ≠ .threw (.backendRpc 7) :=
  ⟨rfl, by decide, rfl, by decide⟩

/-- Claim C7 (amended): Once an adapter's latch holds an error `e`, every
modelled operation short-circuits without touching the state:
`setAccountPending` throws the stored error on all four engines;
`getAddress` (Satoshi, Buterin) and `setAwaitingDeposit` (ERC20) return
`false` instead; and `pollBackend`/`processPending` perform no work,
emit no events, and return the stored error. -/
theorem latch_behaviour_amended (e : Err)
    (cfgS : SatoshiCfg) (cfgE : ERC20Cfg) (cfgB : ButerinCfg) (cfgR : RippleCfg)
    (st : CoinState) (u : UserId) (a : Addr) (amt : DecimalStr) (tagOk : Bool) :
    satoshiSetAccountPending cfgS (some e) st u a amt = (.error e, st) ∧
    erc20SetAccountPending cfgE (some e) st u a amt = (.error e, st) ∧
    buterinSetAccountPending cfgB (some e) st u a amt = (.error e, st) ∧
    rippleSetAccountPending cfgR (some e) st u a amt tagOk = (.error e, st) ∧
    (∀ na, satoshiGetAddress (some e) st u na = (.returnedFalse, st)) ∧
    (∀ hd, buterinGetAddress (some e) st u hd = (.returnedFalse, st)) ∧
    (∀ adj fuel, erc20SetAwaitingDeposit cfgE (some e) st u amt adj fuel
        = some (.returnedFalse, st)) ∧
    (∀ pages ho bal,
      satoshiPollBackend cfgS (some e) st pages ho bal = (some e, st, [])) ∧
    (∀ recs bal, erc20PollBackend cfgE (some e) st recs bal = (some e, st, [])) ∧
    (∀ ch, buterinPollBackend cfgB (some e) st ch = (some e, st, [])) ∧
    (∀ oc, satoshiProcessPending (some e) st oc = (some e, st, [])) ∧
    (∀ ch, buterinProcessPending (some e) st ch = (some e, st, [], [])) ∧
    (∀ oc, erc20ProcessPending cfgE (some e) st oc = (some e, st, [], [])) :=
  ⟨rfl, rfl, rfl, rfl, fun _ => rfl, fun _ => rfl, fun _ _ => rfl,
   fun _ _ _ => rfl, fun _ _ => rfl, fun _ => rfl, fun _ => rfl, fun _ => rfl,
   fun _ => rfl⟩

/-- Claim C8 (code bug): At the failing input — any valid user, here
user 1, whose cumulative deposit is 5000 minimal units —
`Buterin.getAccountInfo` raises a `TypeError` instead of returning the
`{deposit, withdrawal}` object: line 456 calls `this.fromBigInti`, a
method that does not exist (the conversion method is `fromBigInt`), so
`getStats` on the account-based coin always throws.  The Satoshi and
ERC20 engines return the totals formatted at the coin's precision
(here `0.00005000` and `0.00000000` at 8 decimals) without raising. -/
theorem buterin_getStats_typeError :
    buterinGetAccountInfo oneStatsState 1
      = .error (.typeError ("this.fromBigInti is not a function")) ∧
    satoshiGetAccountInfo ⟨8, true, 1, 1, 3⟩ oneStatsState 1
      = ⟨⟨0, 5000, 8⟩, ⟨0, 0, 8⟩, none⟩ ∧
    erc20GetAccountInfo ⟨8, true, 1, 1, "R", fun _ => true⟩ oneStatsState 1
      = ⟨⟨0, 5000, 8⟩, ⟨0, 0, 8⟩, none⟩ :=
  ⟨rfl, rfl, rfl⟩

/-- Helper: updating an existing account-stats row makes it the row the
lookup finds. -/
theorem findMap_update (l : List (UserId × Stats)) (u : UserId) (s : Stats)
    (h : (l.find? (fun r => r.1 == u)).isSome = true) :
    (l.map (fun r => if r.1 == u then (u, s) else r)).find? (fun r => r.1 == u)
      = some (u, s) := by
  induction l with
  | nil => simp at h
  | cons x xs ih =>
    by_cases hx : (x.1 == u) = true
    · rw [List.map_cons, if_pos hx, List.find?_cons_of_pos _ (by simp)]
    · rw [List.map_cons, if_neg hx, List.find?_cons_of_neg _ (by simpa using hx)]
      rw [List.find?_cons_of_neg _ (by simpa using hx)] at h
      exact ih h

/-- Helper: inserting an account-stats row for an unknown user makes it
the row the lookup finds. -/
theorem findAppend_insert (l : List (UserId × Stats)) (u : UserId) (s : Stats)
    (h : l.find? (fun r => r.1 == u) = none) :
    (l ++ [(u, s)]).find? (fun r => r.1 == u) = some (u, s) := by
  induction l with
  | nil => simp [List.find?]
  | cons x xs ih =>
    rw [List.find?_eq_none] at h
    have hx : ¬((x.1 == u) = true) := by
      have := h x (by simp)
      simpa using this
    rw [List.cons_append, List.find?_cons_of_neg _ (by exact hx)]
    apply ih
    rw [List.find?_eq_none]
    intro y hy
    exact h y (by simp [hy])

/-- Helper: the account totals written by `setAccountStats` are the
totals `getAccountStats` then reads. -/
theorem dbStats_set_get (st : CoinState) (u : UserId) (s : Stats) :
    dbGetAccountStats (dbSetAccountStats st u s) u = s := by
  unfold dbGetAccountStats dbSetAccountStats
  split
  · rename_i hsome
    rw [findMap_update st.accountStats u s hsome]
    rfl
  · rename_i hnone
    rw [findAppend_insert st.accountStats u s ?_]
    · rfl
    · rcases hfind : st.accountStats.find? (fun r => r.1 == u) with _ | v
      · exact hfind
      · rw [hfind] at hnone
        simp at hnone

/-- Helper: `getAccountStats` reads only the account-stats table. -/
theorem dbGetAccountStats_field (st1 st2 : CoinState) (u : UserId)
    (h : st1.accountStats = st2.accountStats) :
    dbGetAccountStats st1 u = dbGetAccountStats st2 u := by
  unfold dbGetAccountStats
  rw [h]

/-- Claim C10 (counterexample): The handle snapshot is read once at poll
start, so two distinct confirmed transfers of the same reserved value
(`1000000` units, tx hashes 71 and 72) within one `pollBackend` pass
both credit the handle's user: user 7's cumulative deposit becomes
`2000000` although only one handle reserved `1000000` — the reserved
amount is consumed twice, refuting at-most-once consumption. -/
theorem erc20_double_credit_counterexample :
    erc20PollBackend ⟨6, true, 10, 0, "R", fun _ => true⟩ none oneAwaitingState
        [⟨1000000, 71, 5, 50⟩, ⟨1000000, 72, 6, 60⟩] 555
      = (none,
        { emptyCoinState with
            txs := [⟨7, 1000000, 71, 5⟩, ⟨7, 1000000, 72, 6⟩],
            accountStats := [(7, ⟨2000000, 0⟩)],
            globalStats := ⟨2000000, 0⟩,
            backendBalance := 555 },
        [⟨7, 1000000, 71⟩, ⟨7, 1000000, 72⟩]) :=
  rfl

/-- Claim C10 (amended): One step of the amount-matching loop of
`ERC20.pollBackend` leaves the ledger completely unchanged for any
record below the minimum, whose value no handle of the start-of-poll
snapshot reserves, or whose transaction hash is already recorded; and
for a matching record it credits the matched user's and the global
deposit totals by the transferred value, removes the awaiting-deposit
row carrying that value, inserts the transaction row and emits the
event, all in the same atomic unit, touching neither the withdrawal log
nor the pending queue.  Uniqueness of consumption holds only against
the live transaction log (via `txHash`), not against the snapshot: two
equal-valued transfers with distinct hashes in one pass both match (see
the counterexample). -/
theorem erc20_poll_matching_amended (cfg : ERC20Cfg) (snap : List (Int × UserId))
    (st : CoinState) (evs : List DEvent) (r : ERecord) :
    (r.amount < cfg.minimumAmount → erc20PollStep cfg snap (st, evs) r = (st, evs)) ∧
    (snap.find? (fun p => p.1 == r.amount) = none →
      erc20PollStep cfg snap (st, evs) r = (st, evs)) ∧
    (dbCheckTransactionExists st r.txHash = true →
      erc20PollStep cfg snap (st, evs) r = (st, evs)) ∧
    (∀ p, ¬(r.amount < cfg.minimumAmount) →
      snap.find? (fun q => q.1 == r.amount) = some p →
      dbCheckTransactionExists st r.txHash = false →
      (erc20PollStep cfg snap (st, evs) r).2 = evs ++ [⟨p.2, r.amount, r.txHash⟩] ∧
      (erc20PollStep cfg snap (st, evs) r).1.txs
        = st.txs ++ [⟨p.2, r.amount, r.txHash, r.blockNumber⟩] ∧
      (erc20PollStep cfg snap (st, evs) r).1.awaiting
        = st.awaiting.filter (fun w => w.2 != r.amount) ∧
      (dbGetAccountStats (erc20PollStep cfg snap (st, evs) r).1 p.2).deposit
        = (dbGetAccountStats st p.2).deposit + r.amount ∧
      (erc20PollStep cfg snap (st, evs) r).1.globalStats.deposit
        = st.globalStats.deposit + r.amount ∧
      (erc20PollStep cfg snap (st, evs) r).1.wtxs = st.wtxs ∧
      (erc20PollStep cfg snap (st, evs) r).1.pending = st.pending) := by
  refine ⟨?_, ?_, ?_, ?_⟩
  · intro hlt
    unfold erc20PollStep
    dsimp only
    rw [if_pos hlt]
  · intro hnone
    unfold erc20PollStep
    dsimp only
    split
    · rfl
    · rw [hnone]
  · intro hex
    unfold erc20PollStep
    dsimp only
    split
    · rfl
    · split
      · rfl
      · rfl
  · intro p hlt hfind hex
    have hstats : (dbGetAccountStats (erc20PollStep cfg snap (st, evs) r).1 p.2).deposit
        = (dbGetAccountStats st p.2).deposit + r.amount := by
      unfold erc20PollStep
      dsimp only
      rw [if_neg hlt, hfind]
      dsimp only
      rw [if_neg (by simp [hex])]
      dsimp only
      unfold dbSetAccountStats dbDeleteAwaitingDeposit dbGetAccountStats
      dsimp only
      split
      · rename_i hsome
        rw [findMap_update _ _ _ hsome]
        rfl
      · rename_i hnone
        rw [findAppend_insert _ _ _ ?_]
        · rfl
        · rcases hf2 : st.accountStats.find? (fun q => q.1 == p.2) with _ | v
          · exact hf2
          · rw [hf2] at hnone
            simp at hnone
    refine ⟨?_, ?_, ?_, hstats, ?_, ?_, ?_⟩ <;>
      (unfold erc20PollStep
       dsimp only
       rw [if_neg hlt, hfind]
       dsimp only
       try rw [if_neg (by simp [hex])]
       try dsimp only
       try unfold dbSetAccountStats dbDeleteAwaitingDeposit
       try first
       | rfl
       | (split <;> rfl))
